import Mathlib

/-!
# libopenapi: low-level security scheme model and the components diff

A shallow embedding of two files of the repository,

* `datamodel/low/v3/security_scheme.go` (`SecurityScheme.Build`, `SecurityScheme.Hash`),
* `what-changed/model/components.go` (`CompareComponents`, `runComparison`,
  `ComponentsChanges.TotalChanges`, `ComponentsChanges.TotalBreakingChanges`),

followed by the properties proved about them.

Conventions of the embedding.

* A Go `map` is a finite list of entries with pairwise distinct keys; a `range` loop visits the
  entries in the order of the list, and that order is arbitrary (Go does not fix it), so every
  statement about iteration order quantifies over the permutations of the list.
* A Go pointer that the code tests against `nil` is an `Option`.
* Go `int` results are counts of change records held in memory; they are embedded in `Int`
  without wrap-around.
* Code of the repository that the two files call but do not contain (the `low` package, the
  per-kind comparators, `CheckMapForChanges`, the totals of the child change-sets) is a field of a
  record of parameters; the theorems hold for every value of those parameters.  Concrete values,
  used only to evaluate the code on examples, are modelled from the specification and are marked
  as such.
* Goroutines: the workers of `CompareComponents` run concurrently.  The order in which their
  appends reach the shared change log and the order in which their results arrive on the channel
  are inputs of the embedding (a `Schedule`).  A schedule describes an execution in which the
  appends of the workers do not overlap.  The code puts no lock around the shared log, so in
  other executions appends overlap and records are lost; no schedule describes those, and no
  statement below says that they do not occur.
* A pointer that the code dereferences without a test (the two containers, the entries of the
  child maps) is taken to be non-nil.
-/

set_option autoImplicit false

namespace low

/-- Modelled from the spec: the provenance wrapper of the `low` package (`low.NodeReference`,
not among the two files).  It binds a value to its source position and carries the flags
`isReference` and `isEmpty`; `isEmpty` is set iff the value was never populated. -/
structure NodeReference (T : Type) where
  Value : T
  Line : Nat
  Column : Nat
  isReference : Bool
  isEmpty : Bool
deriving DecidableEq, Repr

/-- Modelled from the spec: `low.NodeReference.IsEmpty`, true iff the wrapped value was never
populated. -/
def NodeReference.IsEmpty {T : Type} (n : NodeReference T) : Bool := n.isEmpty

/-- Modelled from the spec: `low.KeyReference`; the same wrapper, used for map keys. -/
abbrev KeyReference (T : Type) := NodeReference T

/-- Modelled from the spec: `low.ValueReference`; the same wrapper, used for map values. -/
abbrev ValueReference (T : Type) := NodeReference T

/-- The Go type `map[low.KeyReference[string]]low.ValueReference[T]`: its entries, in the order a
`range` loop happens to visit them.  The `nil` map is the empty list. -/
abbrev RefMap (T : Type) := List (KeyReference String × ValueReference T)

/-- A populated wrapper around `v` found at line `ln`, column `col`. -/
def NodeReference.at {T : Type} (v : T) (ln col : Nat) : NodeReference T :=
  { Value := v, Line := ln, Column := col, isReference := false, isEmpty := false }

/-- The wrapper of a field that is absent from the document: Go's zero value of the field type
and no source node. -/
def NodeReference.absent {T : Type} (zero : T) : NodeReference T :=
  { Value := zero, Line := 0, Column := 0, isReference := false, isEmpty := true }

/-- The 32-byte result of a content hash (`[32]byte`), as the list of its bytes. -/
abbrev Digest := List Nat

end low

namespace model

open low

/-- Modelled from the spec: the kind of an atomic change. -/
inductive ChangeType where
  | Added
  | Removed
  | Modified
deriving DecidableEq, Repr

/-- Modelled from the spec: the change record
`{ property, before, after, kind, breaking, context }` (the type `Change` is declared outside
the two files).  `before` and `after` hold the printable form of the values and `none` when there
is none; the context is the source position. -/
structure Change where
  Property : String
  Before : Option String
  After : Option String
  Kind : ChangeType
  Breaking : Bool
  Line : Nat
  Column : Nat
deriving DecidableEq, Repr

/-- The embedded struct `PropertyChanges`; the code assigns its field `Changes`
(`cc.Changes = changes`). -/
structure PropertyChanges where
  Changes : List Change
deriving DecidableEq, Repr

/-- Modelled from the spec: `PropertyChanges.TotalChanges` (declared outside the two files), the
length of the node's own change log. -/
def PropertyChanges.TotalChanges (p : PropertyChanges) : Int :=
  (p.Changes.length : Int)

/-- Modelled from the spec: `PropertyChanges.TotalBreakingChanges` (declared outside the two
files), the number of records of the node's own change log flagged as breaking. -/
def PropertyChanges.TotalBreakingChanges (p : PropertyChanges) : Int :=
  ((p.Changes.filter (fun c => c.Breaking)).length : Int)

/-- The Go type `map[string]*R` of the child change-sets of one kind, `none` being the `nil`
map; the entries are listed in the order a `range` loop visits them. -/
abbrev ChildMap (R : Type) := Option (List (String × R))

/-- The method `Hash` that every low-level object kind has (declared outside the two files):
the content hasher of the specification. -/
class Hashable (T : Type) where
  Hash : T → Digest

/-- The methods `TotalChanges` and `TotalBreakingChanges` that every child change-set (pointer)
type has; they are declared outside the two files. -/
class ChangeSet (R : Type) where
  TotalChanges : R → Int
  TotalBreakingChanges : R → Int

/-- The types the two files use and do not declare, each with its methods: the object kinds of
the low-level models (for the v3 container and for the four v2 containers), the change-set
(pointer) types the comparators return, and the dynamic type of an extension value (`any`). -/
structure Kinds where
  Schema : Type
  Response : Type
  Parameter : Type
  Example : Type
  RequestBody : Type
  Header : Type
  SecurityScheme : Type
  Link : Type
  Callback : Type
  ParameterV2 : Type
  ResponseV2 : Type
  SecuritySchemeV2 : Type
  SchemaChanges : Type
  ResponseChanges : Type
  ParameterChanges : Type
  ExampleChanges : Type
  RequestBodyChanges : Type
  HeaderChanges : Type
  SecuritySchemeChanges : Type
  LinkChanges : Type
  CallbackChanges : Type
  ExtensionChanges : Type
  Any : Type
  [hashSchema : Hashable Schema]
  [hashResponse : Hashable Response]
  [hashParameter : Hashable Parameter]
  [hashExample : Hashable Example]
  [hashRequestBody : Hashable RequestBody]
  [hashHeader : Hashable Header]
  [hashSecurityScheme : Hashable SecurityScheme]
  [hashLink : Hashable Link]
  [hashCallback : Hashable Callback]
  [hashParameterV2 : Hashable ParameterV2]
  [hashResponseV2 : Hashable ResponseV2]
  [hashSecuritySchemeV2 : Hashable SecuritySchemeV2]
  [totalsSchemaChanges : ChangeSet SchemaChanges]
  [totalsResponseChanges : ChangeSet ResponseChanges]
  [totalsParameterChanges : ChangeSet ParameterChanges]
  [totalsExampleChanges : ChangeSet ExampleChanges]
  [totalsRequestBodyChanges : ChangeSet RequestBodyChanges]
  [totalsHeaderChanges : ChangeSet HeaderChanges]
  [totalsSecuritySchemeChanges : ChangeSet SecuritySchemeChanges]
  [totalsLinkChanges : ChangeSet LinkChanges]
  [totalsCallbackChanges : ChangeSet CallbackChanges]
  [totalsExtensionChanges : ChangeSet ExtensionChanges]

attribute [instance] Kinds.hashSchema Kinds.hashResponse Kinds.hashParameter Kinds.hashExample
  Kinds.hashRequestBody Kinds.hashHeader Kinds.hashSecurityScheme Kinds.hashLink
  Kinds.hashCallback Kinds.hashParameterV2 Kinds.hashResponseV2 Kinds.hashSecuritySchemeV2
  Kinds.totalsSchemaChanges Kinds.totalsResponseChanges Kinds.totalsParameterChanges
  Kinds.totalsExampleChanges Kinds.totalsRequestBodyChanges Kinds.totalsHeaderChanges
  Kinds.totalsSecuritySchemeChanges Kinds.totalsLinkChanges Kinds.totalsCallbackChanges
  Kinds.totalsExtensionChanges

/-- The struct `ComponentsChanges` (components.go, lines 13-25). -/
structure ComponentsChanges (K : Kinds) where
  toPropertyChanges : PropertyChanges
  SchemaChanges : ChildMap K.SchemaChanges
  ResponsesChanges : ChildMap K.ResponseChanges
  ParameterChanges : ChildMap K.ParameterChanges
  ExamplesChanges : ChildMap K.ExampleChanges
  RequestBodyChanges : ChildMap K.RequestBodyChanges
  HeaderChanges : ChildMap K.HeaderChanges
  SecuritySchemeChanges : ChildMap K.SecuritySchemeChanges
  LinkChanges : ChildMap K.LinkChanges
  CallbackChanges : ChildMap K.CallbackChanges
  ExtensionChanges : Option K.ExtensionChanges

/-- One loop `for k := range m { v += m[k].method() }` of the two totals: `v` after the loop.
For a key `k` the loop ranges over, `m[k]` is the value of the entry of `k`.  Over the `nil` map
the loop body does not run. -/
def rangeAdd {R : Type} (method : R → Int) (m : ChildMap R) (v : Int) : Int :=
  match m with
  | none => v
  | some entries => entries.foldl (fun acc e => acc + method e.2) v

/-- The method `(*ComponentsChanges).TotalChanges` (components.go, lines 203-236). -/
def ComponentsChanges.TotalChanges {K : Kinds} (c : ComponentsChanges K) : Int :=
  let v := c.toPropertyChanges.TotalChanges
  let v := rangeAdd ChangeSet.TotalChanges c.SchemaChanges v
  let v := rangeAdd ChangeSet.TotalChanges c.ResponsesChanges v
  let v := rangeAdd ChangeSet.TotalChanges c.ParameterChanges v
  let v := rangeAdd ChangeSet.TotalChanges c.ExamplesChanges v
  let v := rangeAdd ChangeSet.TotalChanges c.RequestBodyChanges v
  let v := rangeAdd ChangeSet.TotalChanges c.HeaderChanges v
  let v := rangeAdd ChangeSet.TotalChanges c.SecuritySchemeChanges v
  let v := rangeAdd ChangeSet.TotalChanges c.LinkChanges v
  let v := rangeAdd ChangeSet.TotalChanges c.CallbackChanges v
  match c.ExtensionChanges with
  | some x => v + ChangeSet.TotalChanges x
  | none => v

/-- The method `(*ComponentsChanges).TotalBreakingChanges` (components.go, lines 238-271). -/
def ComponentsChanges.TotalBreakingChanges {K : Kinds} (c : ComponentsChanges K) : Int :=
  let v := c.toPropertyChanges.TotalBreakingChanges
  let v := rangeAdd ChangeSet.TotalBreakingChanges c.SchemaChanges v
  let v := rangeAdd ChangeSet.TotalBreakingChanges c.ResponsesChanges v
  let v := rangeAdd ChangeSet.TotalBreakingChanges c.ParameterChanges v
  let v := rangeAdd ChangeSet.TotalBreakingChanges c.ExamplesChanges v
  let v := rangeAdd ChangeSet.TotalBreakingChanges c.RequestBodyChanges v
  let v := rangeAdd ChangeSet.TotalBreakingChanges c.HeaderChanges v
  let v := rangeAdd ChangeSet.TotalBreakingChanges c.SecuritySchemeChanges v
  let v := rangeAdd ChangeSet.TotalBreakingChanges c.LinkChanges v
  let v := rangeAdd ChangeSet.TotalBreakingChanges c.CallbackChanges v
  match c.ExtensionChanges with
  | some x => v + ChangeSet.TotalBreakingChanges x
  | none => v

/-- The total of one child map as the specification words it: the sum of the method over every
entry of the map, an absent (`nil`) map contributing zero. -/
def childSum {R : Type} (method : R → Int) (m : ChildMap R) : Int :=
  match m with
  | none => 0
  | some entries => (entries.map (fun e => method e.2)).sum

/-- The total of the extension changes as the specification words it: the method of the node, an
absent (`nil`) node contributing zero. -/
def nodeTotal {X : Type} (method : X → Int) (x : Option X) : Int :=
  match x with
  | none => 0
  | some n => method n

end model

namespace v2

open low model

/-- The struct `v2.ParameterDefinitions` (declared outside the two files); the code reads its
field `Definitions`. -/
structure ParameterDefinitions (K : Kinds) where
  Definitions : RefMap K.ParameterV2

/-- The struct `v2.ResponsesDefinitions` (declared outside the two files); the code reads its
field `Definitions`. -/
structure ResponsesDefinitions (K : Kinds) where
  Definitions : RefMap K.ResponseV2

/-- The struct `v2.Definitions` (declared outside the two files); the code reads its field
`Schemas`. -/
structure Definitions (K : Kinds) where
  Schemas : RefMap K.Schema

/-- The struct `v2.SecurityDefinitions` (declared outside the two files); the code reads its
field `Definitions`. -/
structure SecurityDefinitions (K : Kinds) where
  Definitions : RefMap K.SecuritySchemeV2

end v2

namespace v3

open low model

/-- The struct `v3.Components` (declared outside the two files): the nine sub-collections the
code reads, each a `low.NodeReference` around a map, and the extensions of the container. -/
structure Components (K : Kinds) where
  Schemas : NodeReference (RefMap K.Schema)
  Responses : NodeReference (RefMap K.Response)
  Parameters : NodeReference (RefMap K.Parameter)
  Examples : NodeReference (RefMap K.Example)
  RequestBodies : NodeReference (RefMap K.RequestBody)
  Headers : NodeReference (RefMap K.Header)
  SecuritySchemes : NodeReference (RefMap K.SecurityScheme)
  Links : NodeReference (RefMap K.Link)
  Callbacks : NodeReference (RefMap K.Callback)
  Extensions : RefMap K.Any

end v3

namespace model

open low

/-- The label constants the code refers to (`v3.SchemasLabel`, ..., `v3.SecurityDefinitionLabel`,
`v2.DefinitionsLabel`), declared outside the two files. -/
structure Labels where
  SchemasLabel : String
  ResponsesLabel : String
  ParametersLabel : String
  ExamplesLabel : String
  RequestBodiesLabel : String
  HeadersLabel : String
  SecuritySchemesLabel : String
  LinksLabel : String
  CallbacksLabel : String
  SecurityDefinitionLabel : String
  DefinitionsLabel : String

/-- The nine labels the fan-in loop switches on, in the order of its cases. -/
def Labels.nine (L : Labels) : List String :=
  [L.SchemasLabel, L.ResponsesLabel, L.ParametersLabel, L.ExamplesLabel, L.RequestBodiesLabel,
   L.HeadersLabel, L.SecuritySchemesLabel, L.LinksLabel, L.CallbacksLabel]

/-- The functions of the repository that `CompareComponents` calls and that the two files do not
contain.  `CheckMapForChanges` is the generic map differ; in the code it receives a pointer to
the change log and appends to it, here it returns the records it appends, in the order it appends
them, next to its result. -/
structure Repo (K : Kinds) where
  labels : Labels
  CheckMapForChanges : {T R : Type} → [Hashable T] → [ChangeSet R] →
    RefMap T → RefMap T → String → (T → T → R) → List Change × ChildMap R
  CompareParametersV2 : K.ParameterV2 → K.ParameterV2 → K.ParameterChanges
  CompareResponseV2 : K.ResponseV2 → K.ResponseV2 → K.ResponseChanges
  CompareSchemas : K.Schema → K.Schema → K.SchemaChanges
  CompareSecuritySchemesV2 : K.SecuritySchemeV2 → K.SecuritySchemeV2 → K.SecuritySchemeChanges
  CompareResponseV3 : K.Response → K.Response → K.ResponseChanges
  CompareParametersV3 : K.Parameter → K.Parameter → K.ParameterChanges
  CompareExamples : K.Example → K.Example → K.ExampleChanges
  CompareRequestBodies : K.RequestBody → K.RequestBody → K.RequestBodyChanges
  CompareHeadersV3 : K.Header → K.Header → K.HeaderChanges
  CompareSecuritySchemesV3 : K.SecurityScheme → K.SecurityScheme → K.SecuritySchemeChanges
  CompareLinks : K.Link → K.Link → K.LinkChanges
  CompareCallback : K.Callback → K.Callback → K.CallbackChanges
  CompareExtensions : RefMap K.Any → RefMap K.Any → Option K.ExtensionChanges

/-- The dynamic value of the field `result any` of a `componentComparison`: a child map of one of
the nine change-set types. -/
inductive AnyResult (K : Kinds) where
  | ofSchemaChanges (m : ChildMap K.SchemaChanges)
  | ofResponseChanges (m : ChildMap K.ResponseChanges)
  | ofParameterChanges (m : ChildMap K.ParameterChanges)
  | ofExampleChanges (m : ChildMap K.ExampleChanges)
  | ofRequestBodyChanges (m : ChildMap K.RequestBodyChanges)
  | ofHeaderChanges (m : ChildMap K.HeaderChanges)
  | ofSecuritySchemeChanges (m : ChildMap K.SecuritySchemeChanges)
  | ofLinkChanges (m : ChildMap K.LinkChanges)
  | ofCallbackChanges (m : ChildMap K.CallbackChanges)

/-- The struct `componentComparison` (components.go, lines 189-192). -/
structure componentComparison (K : Kinds) where
  prop : String
  result : AnyResult K

/-- What one goroutine running `runComparison` does: the records it appends to the shared change
log, in its own order, and the value it then sends on `doneChan`. -/
structure WorkerRun (K : Kinds) where
  appended : List Change
  sent : componentComparison K

/-- The function `runComparison` (components.go, lines 194-201).  `box` is Go's conversion of the
result of `CheckMapForChanges` to `any`, which records its dynamic type. -/
def runComparison {K : Kinds} {T R : Type} [Hashable T] [ChangeSet R] (repo : Repo K)
    (l r : RefMap T) (label : String) (compareFunc : T → T → R)
    (box : ChildMap R → AnyResult K) : WorkerRun K :=
  let out := repo.CheckMapForChanges l r label compareFunc
  { appended := out.1, sent := { prop := label, result := box out.2 } }

/-- The guard of each of the nine dispatch statements (components.go, lines 80, 86, ..., 128):
`!l.IsEmpty() || r.IsEmpty()`. -/
def dispatchGuard {T : Type} (l r : NodeReference T) : Bool :=
  !l.IsEmpty || r.IsEmpty

/-- The state of the dispatch phase: the counter `comparisons` and the goroutines started so
far, in program order. -/
structure Spawned (K : Kinds) where
  comparisons : Nat
  workers : List (WorkerRun K)

/-- One dispatch statement: `if guard { comparisons++; go runComparison(...) }`. -/
def Spawned.goIf {K : Kinds} (s : Spawned K) (guard : Bool) (w : WorkerRun K) : Spawned K :=
  if guard then { comparisons := s.comparisons + 1, workers := s.workers ++ [w] } else s

/-- The dispatch phase of `CompareComponents` (components.go, lines 76-132). -/
def dispatch {K : Kinds} (repo : Repo K) (lComponents rComponents : v3.Components K) :
    Spawned K :=
  let s : Spawned K := { comparisons := 0, workers := [] }
  let s := s.goIf (dispatchGuard lComponents.Schemas rComponents.Schemas)
    (runComparison repo lComponents.Schemas.Value rComponents.Schemas.Value
      repo.labels.SchemasLabel repo.CompareSchemas AnyResult.ofSchemaChanges)
  let s := s.goIf (dispatchGuard lComponents.Responses rComponents.Responses)
    (runComparison repo lComponents.Responses.Value rComponents.Responses.Value
      repo.labels.ResponsesLabel repo.CompareResponseV3 AnyResult.ofResponseChanges)
  let s := s.goIf (dispatchGuard lComponents.Parameters rComponents.Parameters)
    (runComparison repo lComponents.Parameters.Value rComponents.Parameters.Value
      repo.labels.ParametersLabel repo.CompareParametersV3 AnyResult.ofParameterChanges)
  let s := s.goIf (dispatchGuard lComponents.Examples rComponents.Examples)
    (runComparison repo lComponents.Examples.Value rComponents.Examples.Value
      repo.labels.ExamplesLabel repo.CompareExamples AnyResult.ofExampleChanges)
  let s := s.goIf (dispatchGuard lComponents.RequestBodies rComponents.RequestBodies)
    (runComparison repo lComponents.RequestBodies.Value rComponents.RequestBodies.Value
      repo.labels.RequestBodiesLabel repo.CompareRequestBodies AnyResult.ofRequestBodyChanges)
  let s := s.goIf (dispatchGuard lComponents.Headers rComponents.Headers)
    (runComparison repo lComponents.Headers.Value rComponents.Headers.Value
      repo.labels.HeadersLabel repo.CompareHeadersV3 AnyResult.ofHeaderChanges)
  let s := s.goIf (dispatchGuard lComponents.SecuritySchemes rComponents.SecuritySchemes)
    (runComparison repo lComponents.SecuritySchemes.Value rComponents.SecuritySchemes.Value
      repo.labels.SecuritySchemesLabel repo.CompareSecuritySchemesV3
      AnyResult.ofSecuritySchemeChanges)
  let s := s.goIf (dispatchGuard lComponents.Links rComponents.Links)
    (runComparison repo lComponents.Links.Value rComponents.Links.Value
      repo.labels.LinksLabel repo.CompareLinks AnyResult.ofLinkChanges)
  let s := s.goIf (dispatchGuard lComponents.Callbacks rComponents.Callbacks)
    (runComparison repo lComponents.Callbacks.Value rComponents.Callbacks.Value
      repo.labels.CallbacksLabel repo.CompareCallback AnyResult.ofCallbackChanges)
  s

/-- The ways `CompareComponents` can fail to return. -/
inductive Fault where
  /-- A type assertion `res.result.(map[string]*R)` on a value of another dynamic type. -/
  | typeAssertion (label : String)
  /-- The receive `<-doneChan` with no goroutine left to send. -/
  | blocked
deriving DecidableEq, Repr

/-- The outcome of the fan-in loop: the aggregate, the final `completedComponents`, and the
values that were sent but never received. -/
structure FanIn (K : Kinds) where
  cc : ComponentsChanges K
  completedComponents : Nat
  unreceived : List (componentComparison K)

/-- The body of the `switch res.prop` statement (components.go, lines 140-177): the first case
whose label equals `res.prop` runs; it increments `completedComponents` and stores the result,
asserted to the type of the field.  When no case matches nothing changes. -/
def fanInStep {K : Kinds} (L : Labels) (res : componentComparison K)
    (st : ComponentsChanges K × Nat) : Except Fault (ComponentsChanges K × Nat) :=
  let cc := st.1
  let completedComponents := st.2
  if res.prop = L.SchemasLabel then
    match res.result with
    | .ofSchemaChanges m => .ok ({ cc with SchemaChanges := m }, completedComponents + 1)
    | _ => .error (.typeAssertion res.prop)
  else if res.prop = L.ResponsesLabel then
    match res.result with
    | .ofResponseChanges m => .ok ({ cc with ResponsesChanges := m }, completedComponents + 1)
    | _ => .error (.typeAssertion res.prop)
  else if res.prop = L.ParametersLabel then
    match res.result with
    | .ofParameterChanges m => .ok ({ cc with ParameterChanges := m }, completedComponents + 1)
    | _ => .error (.typeAssertion res.prop)
  else if res.prop = L.ExamplesLabel then
    match res.result with
    | .ofExampleChanges m => .ok ({ cc with ExamplesChanges := m }, completedComponents + 1)
    | _ => .error (.typeAssertion res.prop)
  else if res.prop = L.RequestBodiesLabel then
    match res.result with
    | .ofRequestBodyChanges m =>
      .ok ({ cc with RequestBodyChanges := m }, completedComponents + 1)
    | _ => .error (.typeAssertion res.prop)
  else if res.prop = L.HeadersLabel then
    match res.result with
    | .ofHeaderChanges m => .ok ({ cc with HeaderChanges := m }, completedComponents + 1)
    | _ => .error (.typeAssertion res.prop)
  else if res.prop = L.SecuritySchemesLabel then
    match res.result with
    | .ofSecuritySchemeChanges m =>
      .ok ({ cc with SecuritySchemeChanges := m }, completedComponents + 1)
    | _ => .error (.typeAssertion res.prop)
  else if res.prop = L.LinksLabel then
    match res.result with
    | .ofLinkChanges m => .ok ({ cc with LinkChanges := m }, completedComponents + 1)
    | _ => .error (.typeAssertion res.prop)
  else if res.prop = L.CallbacksLabel then
    match res.result with
    | .ofCallbackChanges m => .ok ({ cc with CallbackChanges := m }, completedComponents + 1)
    | _ => .error (.typeAssertion res.prop)
  else
    .ok (cc, completedComponents)

/-- The fan-in loop (components.go, lines 136-179):
`for completedComponents < comparisons { res := <-doneChan; switch res.prop { ... } }`.
The first argument lists the values the goroutines send, in the order the channel delivers
them; the second is the aggregate with `completedComponents`. -/
def fanIn {K : Kinds} (L : Labels) (comparisons : Nat) :
    List (componentComparison K) → ComponentsChanges K × Nat → Except Fault (FanIn K)
  | [], st =>
    if st.2 < comparisons then .error .blocked
    else .ok { cc := st.1, completedComponents := st.2, unreceived := [] }
  | res :: rest, st =>
    if st.2 < comparisons then
      match fanInStep L res st with
      | .ok st1 => fanIn L comparisons rest st1
      | .error e => .error e
    else .ok { cc := st.1, completedComponents := st.2, unreceived := res :: rest }

/-- The scheduling of the goroutines of one call, which Go leaves open.  `appends` names, step
by step, the worker (by its position in program order) whose next append reaches the shared
change log; a step naming a worker with nothing left to append is skipped, and appends still
outstanding when the list ends happen in program order.  `arrivals` names the workers in the
order their results are received: the workers it names come first (repetitions and numbers that
name no worker are ignored), the others follow in program order.  A schedule describes an
execution in which no two appends overlap; the executions of the code in which they do (the
log is shared without a lock) are not described. -/
structure Schedule where
  appends : List Nat
  arrivals : List Nat
deriving DecidableEq, Repr

/-- The shared change log after the workers ran under an append schedule, one append at a
time: `queues` holds, per worker, the records it appends, in its own order. -/
def interleave {α : Type} : List (List α) → List Nat → List α
  | queues, [] => queues.flatten
  | queues, i :: rest =>
    match queues[i]? with
    | some (c :: q) => c :: interleave (queues.set i q) rest
    | _ => interleave queues rest

/-- The order in which the results of `n` workers are received under a schedule. -/
def arrivalOrder (n : Nat) (arrivals : List Nat) : List Nat :=
  (arrivals.filter (fun i => decide (i < n))).dedup ++
    (List.range n).filter (fun i => decide (i ∉ arrivals))

/-- The values delivered on `doneChan`, in order of arrival. -/
def delivered {K : Kinds} (workers : List (WorkerRun K)) (arrivals : List Nat) :
    List (componentComparison K) :=
  (arrivalOrder workers.length arrivals).filterMap (fun i => (workers[i]?).map (fun w => w.sent))

/-- The dynamic type of an argument of `CompareComponents`, as `reflect.TypeOf` reports it. -/
inductive GoType where
  | ptrParameterDefinitions
  | ptrResponsesDefinitions
  | ptrDefinitions
  | ptrSecurityDefinitions
  | ptrComponents
  | other (name : String)
deriving DecidableEq, Repr

/-- An argument of `CompareComponents` (Go type `any`): a pointer to one of the five containers
the function knows, or a value of any other dynamic type (the `nil` interface included). -/
inductive Container (K : Kinds) where
  | ParameterDefinitions (d : v2.ParameterDefinitions K)
  | ResponsesDefinitions (d : v2.ResponsesDefinitions K)
  | Definitions (d : v2.Definitions K)
  | SecurityDefinitions (d : v2.SecurityDefinitions K)
  | Components (c : v3.Components K)
  | other (name : String)

/-- The function `reflect.TypeOf` on an argument of `CompareComponents`. -/
def Container.TypeOf {K : Kinds} : Container K → GoType
  | .ParameterDefinitions _ => .ptrParameterDefinitions
  | .ResponsesDefinitions _ => .ptrResponsesDefinitions
  | .Definitions _ => .ptrDefinitions
  | .SecurityDefinitions _ => .ptrSecurityDefinitions
  | .Components _ => .ptrComponents
  | .other name => .other name

/-- The two variables `CompareComponents` builds up: `cc` and `changes`. -/
structure Assembly (K : Kinds) where
  cc : ComponentsChanges K
  changes : List Change

/-- The values `new(ComponentsChanges)` and `var changes []*Change` (lines 29-31). -/
def Assembly.new {K : Kinds} : Assembly K :=
  { cc := { toPropertyChanges := { Changes := [] }, SchemaChanges := none,
            ResponsesChanges := none, ParameterChanges := none, ExamplesChanges := none,
            RequestBodyChanges := none, HeaderChanges := none, SecuritySchemeChanges := none,
            LinkChanges := none, CallbackChanges := none, ExtensionChanges := none },
    changes := [] }

/-- The statement "Swagger Parameters" (components.go, lines 33-40). -/
def swaggerParameters {K : Kinds} (repo : Repo K) (l r : Container K) (st : Assembly K) :
    Assembly K :=
  match l, r with
  | .ParameterDefinitions lDef, .ParameterDefinitions rDef =>
    let out := repo.CheckMapForChanges lDef.Definitions rDef.Definitions
      repo.labels.ParametersLabel repo.CompareParametersV2
    { cc := { st.cc with ParameterChanges := out.2 }, changes := st.changes ++ out.1 }
  | _, _ => st

/-- The statement "Swagger Responses" (components.go, lines 42-49). -/
def swaggerResponses {K : Kinds} (repo : Repo K) (l r : Container K) (st : Assembly K) :
    Assembly K :=
  match l, r with
  | .ResponsesDefinitions lDef, .ResponsesDefinitions rDef =>
    let out := repo.CheckMapForChanges lDef.Definitions rDef.Definitions
      repo.labels.ResponsesLabel repo.CompareResponseV2
    { cc := { st.cc with ResponsesChanges := out.2 }, changes := st.changes ++ out.1 }
  | _, _ => st

/-- The statement "Swagger Schemas" (components.go, lines 51-58). -/
def swaggerSchemas {K : Kinds} (repo : Repo K) (l r : Container K) (st : Assembly K) :
    Assembly K :=
  match l, r with
  | .Definitions lDef, .Definitions rDef =>
    let out := repo.CheckMapForChanges lDef.Schemas rDef.Schemas
      repo.labels.DefinitionsLabel repo.CompareSchemas
    { cc := { st.cc with SchemaChanges := out.2 }, changes := st.changes ++ out.1 }
  | _, _ => st

/-- The statement "Swagger Security Definitions" (components.go, lines 60-67). -/
def swaggerSecurityDefinitions {K : Kinds} (repo : Repo K) (l r : Container K)
    (st : Assembly K) : Assembly K :=
  match l, r with
  | .SecurityDefinitions lDef, .SecurityDefinitions rDef =>
    let out := repo.CheckMapForChanges lDef.Definitions rDef.Definitions
      repo.labels.SecurityDefinitionLabel repo.CompareSecuritySchemesV2
    { cc := { st.cc with SecuritySchemeChanges := out.2 }, changes := st.changes ++ out.1 }
  | _, _ => st

/-- The statement "OpenAPI Components" (components.go, lines 69-180): dispatch, the extensions
of the container, the workers appending to the shared log, and the fan-in loop. -/
def openapiComponents {K : Kinds} (repo : Repo K) (sched : Schedule) (l r : Container K)
    (st : Assembly K) : Except Fault (Assembly K) :=
  match l, r with
  | .Components lComponents, .Components rComponents =>
    let spawned := dispatch repo lComponents rComponents
    let cc := { st.cc with
      ExtensionChanges := repo.CompareExtensions lComponents.Extensions rComponents.Extensions }
    let changes := st.changes ++
      interleave (spawned.workers.map (fun w => w.appended)) sched.appends
    match fanIn repo.labels spawned.comparisons (delivered spawned.workers sched.arrivals)
        (cc, 0) with
    | .ok done => .ok { cc := done.cc, changes := changes }
    | .error e => .error e
  | _, _ => .ok st

/-- The aggregate `cc` that `CompareComponents` has assembled when it reaches its final test:
lines 29-182, the assignment `cc.Changes = changes` included. -/
def assemble {K : Kinds} (repo : Repo K) (sched : Schedule) (l r : Container K) :
    Except Fault (ComponentsChanges K) :=
  let st : Assembly K := Assembly.new
  let st := swaggerParameters repo l r st
  let st := swaggerResponses repo l r st
  let st := swaggerSchemas repo l r st
  let st := swaggerSecurityDefinitions repo l r st
  match openapiComponents repo sched l r st with
  | .ok st => .ok { st.cc with toPropertyChanges := { Changes := st.changes } }
  | .error e => .error e

/-- The function `CompareComponents` (components.go, lines 27-187); `none` is the `nil` result. -/
def CompareComponents {K : Kinds} (repo : Repo K) (sched : Schedule) (l r : Container K) :
    Except Fault (Option (ComponentsChanges K)) :=
  match assemble repo sched l r with
  | .ok cc => if cc.TotalChanges ≤ 0 then .ok none else .ok (some cc)
  | .error e => .error e

end model

namespace model

open low

/-- Modelled from the spec: the entries of a map in lexicographic order of their keys (the
order of the strings as lists of characters), the fixed order the map differ must follow. -/
def byKey {T : Type} (m : RefMap T) : RefMap T :=
  m.insertionSort (fun a b => a.1.Value.data ≤ b.1.Value.data)

/-- Modelled from the spec: the value a map holds under a key, if any. -/
def findKey {T : Type} (m : RefMap T) (key : String) : Option (ValueReference T) :=
  (m.find? (fun e => e.1.Value == key)).map (fun e => e.2)

/-- Modelled from the spec: the map differ, `CheckMapForChanges` (declared outside the two
files).  One `Removed` record, breaking, per key present only on the left; one `Added` record,
not breaking, per key present only on the right; for a key present on both sides the values
are compared when their content hashes differ, and the result is stored under the key when it
has a nonzero number of changes.  Keys are visited in lexicographic order.  The function returns
the records it appends to the change log and the map of the child change-sets. -/
def CheckMapForChanges {T R : Type} [Hashable T] [ChangeSet R] (expLeft expRight : RefMap T)
    (label : String) (compareFunc : T → T → R) : List Change × ChildMap R :=
  let removed : List Change :=
    (byKey expLeft).filterMap (fun e =>
      match findKey expRight e.1.Value with
      | none => some { Property := label, Before := some e.1.Value, After := none,
                       Kind := .Removed, Breaking := true, Line := e.1.Line,
                       Column := e.1.Column }
      | some _ => none)
  let added : List Change :=
    (byKey expRight).filterMap (fun e =>
      match findKey expLeft e.1.Value with
      | none => some { Property := label, Before := none, After := some e.1.Value,
                       Kind := .Added, Breaking := false, Line := e.1.Line,
                       Column := e.1.Column }
      | some _ => none)
  let common : List (String × R) :=
    (byKey expLeft).filterMap (fun e =>
      match findKey expRight e.1.Value with
      | none => none
      | some rv =>
        if Hashable.Hash e.2.Value = Hashable.Hash rv.Value then none
        else
          let c := compareFunc e.2.Value rv.Value
          if ChangeSet.TotalChanges c = 0 then none else some (e.1.Value, c))
  (removed ++ added, some common)

/-- Values for the label constants, which are declared outside the two files: the OpenAPI field
names the constants stand for. -/
def fieldLabels : Labels :=
  { SchemasLabel := "schemas", ResponsesLabel := "responses", ParametersLabel := "parameters",
    ExamplesLabel := "examples", RequestBodiesLabel := "requestBodies",
    HeadersLabel := "headers", SecuritySchemesLabel := "securitySchemes",
    LinksLabel := "links", CallbacksLabel := "callbacks",
    SecurityDefinitionLabel := "securityDefinitions", DefinitionsLabel := "definitions" }

/-- Modelled from the spec: a change-set that holds only a change log, behind a pointer; the
absent (`nil`) node counts zero. -/
instance leafChangeSet : ChangeSet (Option PropertyChanges) where
  TotalChanges := fun p => nodeTotal PropertyChanges.TotalChanges p
  TotalBreakingChanges := fun p => nodeTotal PropertyChanges.TotalBreakingChanges p

/-- Modelled from the spec: a change-set that holds only a change log, with the totals of
`PropertyChanges`. -/
instance propertyChangeSet : ChangeSet PropertyChanges where
  TotalChanges := PropertyChanges.TotalChanges
  TotalBreakingChanges := PropertyChanges.TotalBreakingChanges

/-- Modelled from the spec: an object kind made of one scalar, whose content hash is taken to be
the list of the code points of the scalar (equal exactly when the contents are equal). -/
instance leafHashable : Hashable String where
  Hash := fun s => s.data.map Char.toNat

/-- Modelled from the spec: the comparator of the one-scalar object kind; no change-set when the
two values are equal, one `Modified` record, breaking, when they differ. -/
def compareLeaf (l r : String) : Option PropertyChanges :=
  if l = r then none
  else some { Changes := [{ Property := "value", Before := some l, After := some r,
                            Kind := .Modified, Breaking := true, Line := 0, Column := 0 }] }

/-- Modelled from the spec: the extension differ, `CompareExtensions` (declared outside the two
files), for extension values that are strings: the records of the keys removed and added and of
the values modified, and no change-set when there is no record. -/
def compareLeafExtensions (l r : RefMap String) : Option PropertyChanges :=
  let out := CheckMapForChanges l r "extensions" compareLeaf
  let modified : List Change :=
    (out.2.getD []).flatMap (fun e => (e.2.map (fun p => p.Changes)).getD [])
  let records := out.1 ++ modified
  if records.isEmpty then none else some { Changes := records }

/-- The kinds of a repository in which every object kind is the one-scalar kind and every
change-set is a bare change log. -/
@[reducible] def leafKinds : Kinds :=
  { Schema := String, Response := String, Parameter := String, Example := String,
    RequestBody := String, Header := String, SecurityScheme := String, Link := String,
    Callback := String, ParameterV2 := String, ResponseV2 := String,
    SecuritySchemeV2 := String,
    SchemaChanges := Option PropertyChanges, ResponseChanges := Option PropertyChanges,
    ParameterChanges := Option PropertyChanges, ExampleChanges := Option PropertyChanges,
    RequestBodyChanges := Option PropertyChanges, HeaderChanges := Option PropertyChanges,
    SecuritySchemeChanges := Option PropertyChanges, LinkChanges := Option PropertyChanges,
    CallbackChanges := Option PropertyChanges, ExtensionChanges := PropertyChanges,
    Any := String }

/-- The functions of that repository: the map differ of the specification and the comparator of
the one-scalar kind. -/
def leafRepo : Repo leafKinds :=
  { labels := fieldLabels,
    CheckMapForChanges := fun l r label compareFunc => CheckMapForChanges l r label compareFunc,
    CompareParametersV2 := compareLeaf, CompareResponseV2 := compareLeaf,
    CompareSchemas := compareLeaf, CompareSecuritySchemesV2 := compareLeaf,
    CompareResponseV3 := compareLeaf, CompareParametersV3 := compareLeaf,
    CompareExamples := compareLeaf, CompareRequestBodies := compareLeaf,
    CompareHeadersV3 := compareLeaf, CompareSecuritySchemesV3 := compareLeaf,
    CompareLinks := compareLeaf, CompareCallback := compareLeaf,
    CompareExtensions := compareLeafExtensions }

/-- A map of one-scalar objects from its keys and contents, at consecutive source lines. -/
def leafMap (entries : List (String × String)) : RefMap String :=
  entries.enum.map (fun e =>
    (NodeReference.at e.2.1 (e.1 + 1) 1, NodeReference.at e.2.2 (e.1 + 1) 10))

/-- A populated sub-collection of a v3 container. -/
def present (entries : List (String × String)) : NodeReference (RefMap String) :=
  NodeReference.at (leafMap entries) 1 1

/-- A sub-collection that the document does not have. -/
def missing : NodeReference (RefMap String) := NodeReference.absent []

/-- The v3 container with no sub-collection and no extension. -/
def emptyComponents : v3.Components leafKinds :=
  { Schemas := missing, Responses := missing, Parameters := missing, Examples := missing,
    RequestBodies := missing, Headers := missing, SecuritySchemes := missing,
    Links := missing, Callbacks := missing, Extensions := [] }

end model

namespace model

open low

/-- The reusable components of a document before a revision. -/
def storeBefore : v3.Components leafKinds :=
  { emptyComponents with
    Schemas := present [("Pet", "name"), ("Error", "code")],
    Responses := present [("NotFound", "404")] }

/-- The reusable components of the document after the revision: the schema `Error` is gone, the
schema `Order` and the response `Gone` are new. -/
def storeAfter : v3.Components leafKinds :=
  { emptyComponents with
    Schemas := present [("Pet", "name"), ("Order", "id")],
    Responses := present [("NotFound", "404"), ("Gone", "410")] }

/-- A v3 container whose only content is one schema. -/
def oneSchema : v3.Components leafKinds :=
  { emptyComponents with Schemas := present [("Order", "id")] }

/-- A v2 definitions container with one schema. -/
def swaggerDefinitions : v2.Definitions leafKinds :=
  { Schemas := leafMap [("Pet", "name")] }

/-- The schedule in which every worker runs to completion in program order. -/
def inProgramOrder : Schedule := { appends := [], arrivals := [] }

/-- A schedule in which the second worker appends and reports before the first. -/
def secondWorkerFirst : Schedule := { appends := [1], arrivals := [1] }

/-- A `Removed` record, breaking, for a key of a collection. -/
def removedRecord (label key : String) (ln : Nat) : Change :=
  { Property := label, Before := some key, After := none, Kind := .Removed, Breaking := true,
    Line := ln, Column := 1 }

/-- An `Added` record, not breaking, for a key of a collection. -/
def addedRecord (label key : String) (ln : Nat) : Change :=
  { Property := label, Before := none, After := some key, Kind := .Added, Breaking := false,
    Line := ln, Column := 1 }

/-- An aggregate with one record of its own, one schema change-set and extension changes. -/
def sampleAggregate : ComponentsChanges leafKinds :=
  { (Assembly.new : Assembly leafKinds).cc with
    toPropertyChanges := { Changes := [removedRecord "schemas" "Error" 2] },
    SchemaChanges := some [("Pet", compareLeaf "name" "title")],
    ExtensionChanges := some { Changes := [addedRecord "extensions" "x-internal-id" 1] } }

end model

namespace model

open low

/-- A value sent on `doneChan` carries one of the nine labels and a result of the dynamic type
that the case of that label asserts. -/
def WellSent {K : Kinds} (L : Labels) (res : componentComparison K) : Prop :=
  (res.prop = L.SchemasLabel ∧ ∃ m, res.result = .ofSchemaChanges m)
  ∨ (res.prop = L.ResponsesLabel ∧ ∃ m, res.result = .ofResponseChanges m)
  ∨ (res.prop = L.ParametersLabel ∧ ∃ m, res.result = .ofParameterChanges m)
  ∨ (res.prop = L.ExamplesLabel ∧ ∃ m, res.result = .ofExampleChanges m)
  ∨ (res.prop = L.RequestBodiesLabel ∧ ∃ m, res.result = .ofRequestBodyChanges m)
  ∨ (res.prop = L.HeadersLabel ∧ ∃ m, res.result = .ofHeaderChanges m)
  ∨ (res.prop = L.SecuritySchemesLabel ∧ ∃ m, res.result = .ofSecuritySchemeChanges m)
  ∨ (res.prop = L.LinksLabel ∧ ∃ m, res.result = .ofLinkChanges m)
  ∨ (res.prop = L.CallbacksLabel ∧ ∃ m, res.result = .ofCallbackChanges m)

/-- The aggregate after one received value was stored (unchanged when the step fails). -/
def store {K : Kinds} (L : Labels) (cc : ComponentsChanges K) (res : componentComparison K) :
    ComponentsChanges K :=
  match fanInStep L res (cc, 0) with
  | .ok st => st.1
  | .error _ => cc

/-- The field of the aggregate that the fan-in loop assigns under a label, converted to `any`;
`none` when the label is none of the nine. -/
def ComponentsChanges.field {K : Kinds} (L : Labels) (cc : ComponentsChanges K)
    (label : String) : Option (AnyResult K) :=
  if label = L.SchemasLabel then some (.ofSchemaChanges cc.SchemaChanges)
  else if label = L.ResponsesLabel then some (.ofResponseChanges cc.ResponsesChanges)
  else if label = L.ParametersLabel then some (.ofParameterChanges cc.ParameterChanges)
  else if label = L.ExamplesLabel then some (.ofExampleChanges cc.ExamplesChanges)
  else if label = L.RequestBodiesLabel then some (.ofRequestBodyChanges cc.RequestBodyChanges)
  else if label = L.HeadersLabel then some (.ofHeaderChanges cc.HeaderChanges)
  else if label = L.SecuritySchemesLabel then
    some (.ofSecuritySchemeChanges cc.SecuritySchemeChanges)
  else if label = L.LinksLabel then some (.ofLinkChanges cc.LinkChanges)
  else if label = L.CallbacksLabel then some (.ofCallbackChanges cc.CallbackChanges)
  else none

end model

namespace model

/-- The counts of the child change-sets are never negative (they are numbers of records). -/
def Kinds.countsNonneg (K : Kinds) : Prop :=
  (∀ x : K.SchemaChanges, 0 ≤ ChangeSet.TotalChanges x)
  ∧ (∀ x : K.ResponseChanges, 0 ≤ ChangeSet.TotalChanges x)
  ∧ (∀ x : K.ParameterChanges, 0 ≤ ChangeSet.TotalChanges x)
  ∧ (∀ x : K.ExampleChanges, 0 ≤ ChangeSet.TotalChanges x)
  ∧ (∀ x : K.RequestBodyChanges, 0 ≤ ChangeSet.TotalChanges x)
  ∧ (∀ x : K.HeaderChanges, 0 ≤ ChangeSet.TotalChanges x)
  ∧ (∀ x : K.SecuritySchemeChanges, 0 ≤ ChangeSet.TotalChanges x)
  ∧ (∀ x : K.LinkChanges, 0 ≤ ChangeSet.TotalChanges x)
  ∧ (∀ x : K.CallbackChanges, 0 ≤ ChangeSet.TotalChanges x)
  ∧ (∀ x : K.ExtensionChanges, 0 ≤ ChangeSet.TotalChanges x)

/-- The change log of the aggregate a call returned; empty when the call returned `nil`. -/
def changeLog {K : Kinds} (out : Except Fault (Option (ComponentsChanges K))) : List Change :=
  match out with
  | .ok (some cc) => cc.toPropertyChanges.Changes
  | _ => []

end model

namespace v3

open low

/-- Modelled from the spec: a build error, tagged with the source position of the offending
node (the error values come from the `low` package, not among the two files). -/
structure BuildError where
  message : String
  Line : Nat
  Column : Nat
deriving DecidableEq, Repr

/-- The struct `SecurityScheme` (security_scheme.go, lines 25-35).  `F` is the struct
`OAuthFlows`, declared outside the two files, and `A` the dynamic type of an extension value
(`any`); the field `Type` is written `Type_`. -/
structure SecurityScheme (F A : Type) where
  Type_ : NodeReference String
  Description : NodeReference String
  Name : NodeReference String
  In : NodeReference String
  Scheme : NodeReference String
  BearerFormat : NodeReference String
  Flows : NodeReference (Option F)
  OpenIdConnectUrl : NodeReference String
  Extensions : RefMap A

/-- What `security_scheme.go` calls and does not contain.  `N` is `yaml.Node` and `I` is
`index.SpecIndex`, both used only as arguments passed on.  `ExtractObject` returns Go's pair of
a reference and an error; `Sprint` is the `%v` rendering of `fmt.Sprintf`. -/
structure Lib (F A N I : Type) where
  OAuthFlowsLabel : String
  ExtractExtensions : N → RefMap A
  ExtractObject : String → N → I → NodeReference (Option F) × Option BuildError
  GenerateHashString : Option F → String
  Sprint : A → String

/-- The method `(*SecurityScheme).Build` (security_scheme.go, lines 60-72): the receiver after
the call and the error returned (`none` for `nil`). -/
def SecurityScheme.Build {F A N I : Type} (lib : Lib F A N I) (ss : SecurityScheme F A)
    (root : N) (idx : I) : SecurityScheme F A × Option BuildError :=
  let ss := { ss with Extensions := lib.ExtractExtensions root }
  let out := lib.ExtractObject lib.OAuthFlowsLabel root idx
  let oa := out.1
  let oaErr := out.2
  match oaErr with
  | some e => (ss, some e)
  | none =>
    if oa.Value.isSome then ({ ss with Flows := oa }, none)
    else (ss, none)

/-- The function `strings.Join` of the Go library. -/
def stringsJoin : List String → String → String
  | [], _ => ""
  | [a], _ => a
  | a :: b :: rest, sep => a ++ sep ++ stringsJoin (b :: rest) sep

/-- One statement `if !n.IsEmpty() { f = append(f, n.Value) }` of `Hash`. -/
def appendIfPresent (f : List String) (n : NodeReference String) : List String :=
  if !n.IsEmpty then f ++ [n.Value] else f

/-- The token of one extension entry: `fmt.Sprintf("%s-%v", k.Value, ss.Extensions[k].Value)`. -/
def extensionToken {A : Type} (Sprint : A → String)
    (e : KeyReference String × ValueReference A) : String :=
  e.1.Value ++ "-" ++ Sprint e.2.Value

/-- The slice `f` that `Hash` has built when it reaches its last line (security_scheme.go,
lines 76-103).  The loop over `ss.Extensions` visits the entries in the order of the list. -/
def SecurityScheme.tokens {F A N I : Type} (lib : Lib F A N I) (ss : SecurityScheme F A) :
    List String :=
  let f : List String := []
  let f := appendIfPresent f ss.Type_
  let f := appendIfPresent f ss.Description
  let f := appendIfPresent f ss.Name
  let f := appendIfPresent f ss.In
  let f := appendIfPresent f ss.Scheme
  let f := appendIfPresent f ss.BearerFormat
  let f := if !ss.Flows.IsEmpty then f ++ [lib.GenerateHashString ss.Flows.Value] else f
  let f := appendIfPresent f ss.OpenIdConnectUrl
  ss.Extensions.foldl (fun f e => f ++ [extensionToken lib.Sprint e]) f

/-- The string that `Hash` digests: `strings.Join(f, "|")`. -/
def SecurityScheme.joined {F A N I : Type} (lib : Lib F A N I) (ss : SecurityScheme F A) :
    String :=
  stringsJoin (ss.tokens lib) "|"

/-- The method `(*SecurityScheme).Hash` (security_scheme.go, lines 74-105).  `Sum256` is the
function `sha256.Sum256` of the Go library, applied to the bytes of the string. -/
def SecurityScheme.Hash {F A N I : Type} (lib : Lib F A N I) (Sum256 : String → Digest)
    (ss : SecurityScheme F A) : Digest :=
  Sum256 (ss.joined lib)

/-- Two wrappers agree on presence and, when present, on value; positions and the reference
flag are not compared. -/
def sameField {T : Type} (x y : NodeReference T) : Prop :=
  x.IsEmpty = y.IsEmpty ∧ (x.IsEmpty = false → x.Value = y.Value)

/-- The extension entries as key and value, without their positions, in the order visited. -/
def entriesOf {A : Type} (m : RefMap A) : List (String × A) :=
  m.map (fun e => (e.1.Value, e.2.Value))

/-- Two security schemes agree on the presence and value of each of the eight significant
fields and on their extension entries, visited in the same order. -/
def SameContent {F A : Type} (x y : SecurityScheme F A) : Prop :=
  sameField x.Type_ y.Type_ ∧ sameField x.Description y.Description
  ∧ sameField x.Name y.Name ∧ sameField x.In y.In ∧ sameField x.Scheme y.Scheme
  ∧ sameField x.BearerFormat y.BearerFormat ∧ sameField x.Flows y.Flows
  ∧ sameField x.OpenIdConnectUrl y.OpenIdConnectUrl
  ∧ entriesOf x.Extensions = entriesOf y.Extensions

/-- Two security schemes have the same significant fields present. -/
def SamePresence {F A : Type} (x y : SecurityScheme F A) : Prop :=
  x.Type_.IsEmpty = y.Type_.IsEmpty ∧ x.Description.IsEmpty = y.Description.IsEmpty
  ∧ x.Name.IsEmpty = y.Name.IsEmpty ∧ x.In.IsEmpty = y.In.IsEmpty
  ∧ x.Scheme.IsEmpty = y.Scheme.IsEmpty ∧ x.BearerFormat.IsEmpty = y.BearerFormat.IsEmpty
  ∧ x.Flows.IsEmpty = y.Flows.IsEmpty
  ∧ x.OpenIdConnectUrl.IsEmpty = y.OpenIdConnectUrl.IsEmpty

/-- The character `|` does not occur in a token. -/
def barFree (s : String) : Prop := '|' ∉ s.data

/-- Modelled from the spec: the raw document node handed to the object builder, a scalar or a
mapping from keys to nodes, with its source position. -/
inductive Node where
  | scalar (value : String) (line column : Nat)
  | mapping (entries : List (String × Node)) (line column : Nat)

/-- The source line of a node. -/
def Node.line : Node → Nat
  | .scalar _ ln _ => ln
  | .mapping _ ln _ => ln

/-- The source column of a node. -/
def Node.column : Node → Nat
  | .scalar _ _ col => col
  | .mapping _ _ col => col

/-- The children of a mapping node; a scalar has none. -/
def Node.children : Node → List (String × Node)
  | .scalar _ _ _ => []
  | .mapping entries _ _ => entries

/-- The printable form of a node as an extension value. -/
def Node.text : Node → String
  | .scalar value _ _ => value
  | .mapping _ _ _ => "map"

/-- Modelled from the spec: the nested object kind `OAuthFlows` (declared outside the two
files), reduced to the names of the flows it declares. -/
structure OAuthFlows where
  flows : List String
deriving DecidableEq, Repr

/-- Modelled from the spec: `low.ExtractExtensions` (declared outside the two files); it
collects the children of the node whose key begins with the reserved `x-`. -/
def ExtractExtensions (root : Node) : RefMap String :=
  root.children.filterMap (fun e =>
    if "x-".data.isPrefixOf e.1.data then
      some (NodeReference.at e.1 e.2.line 1, NodeReference.at e.2.text e.2.line e.2.column)
    else none)

/-- Modelled from the spec: `low.ExtractObject` at the object kind `OAuthFlows` (declared
outside the two files).  It looks up the child of the node under the label and runs the builder
of the nested kind on it: a mapping builds, any other node is malformed and gives a build error
tagged with the position of the node.  Without such a child the reference is empty and there is
no error.  The index is not consulted (no child is a pointer reference). -/
def ExtractObject (label : String) (root : Node) (_idx : Unit) :
    NodeReference (Option OAuthFlows) × Option BuildError :=
  match root.children.find? (fun e => e.1 == label) with
  | none => (NodeReference.absent none, none)
  | some (_, .mapping entries ln col) =>
    (NodeReference.at (some { flows := entries.map (fun e => e.1) }) ln col, none)
  | some (_, .scalar _ ln col) =>
    (NodeReference.absent none,
      some { message := "object extraction failed", Line := ln, Column := col })

/-- The collaborators of `security_scheme.go` as the specification describes them; the hash
string of the flows is the list of their names and an extension value prints as it is. -/
def specLib : Lib OAuthFlows String Node Unit :=
  { OAuthFlowsLabel := "flows",
    ExtractExtensions := ExtractExtensions,
    ExtractObject := ExtractObject,
    GenerateHashString := fun f =>
      match f with
      | none => ""
      | some o => stringsJoin o.flows ","
    Sprint := fun v => v }

/-- A security scheme with no field and no extension: the receiver before `Build`. -/
def blank : SecurityScheme OAuthFlows String :=
  { Type_ := NodeReference.absent "", Description := NodeReference.absent "",
    Name := NodeReference.absent "", In := NodeReference.absent "",
    Scheme := NodeReference.absent "", BearerFormat := NodeReference.absent "",
    Flows := NodeReference.absent none, OpenIdConnectUrl := NodeReference.absent "",
    Extensions := [] }

/-- A node of a security scheme whose `flows` is a scalar (malformed) and which carries the
extension `x-internal-id`. -/
def malformedFlows : Node :=
  .mapping [("type", .scalar "oauth2" 1 7), ("flows", .scalar "implicit" 2 8),
            ("x-internal-id", .scalar "42" 3 16)] 1 1

/-- A node of a security scheme whose `flows` is a mapping. -/
def wellFormedFlows : Node :=
  .mapping [("type", .scalar "oauth2" 1 7),
            ("flows", .mapping [("implicit", .mapping [] 3 5)] 2 8),
            ("x-internal-id", .scalar "42" 4 16)] 1 1

/-- A scheme whose only field is `type: apiKey`. -/
def onlyType : SecurityScheme OAuthFlows String :=
  { blank with Type_ := NodeReference.at "apiKey" 1 7 }

/-- A scheme whose only field is `description: apiKey`. -/
def onlyDescription : SecurityScheme OAuthFlows String :=
  { blank with Description := NodeReference.at "apiKey" 1 14 }

/-- A scheme with `type: a|b`. -/
def typeWithBar : SecurityScheme OAuthFlows String :=
  { blank with Type_ := NodeReference.at "a|b" 1 7 }

/-- A scheme with `type: a` and `description: b`. -/
def typeAndDescription : SecurityScheme OAuthFlows String :=
  { blank with Type_ := NodeReference.at "a" 1 7, Description := NodeReference.at "b" 2 14 }

/-- The scheme `type: apiKey, in: header, name: X-API-KEY`. -/
def apiKeyHeader : SecurityScheme OAuthFlows String :=
  { blank with Type_ := NodeReference.at "apiKey" 1 7, In := NodeReference.at "header" 2 5,
               Name := NodeReference.at "X-API-KEY" 3 7 }

/-- The same scheme read from another place of a document. -/
def apiKeyHeaderMoved : SecurityScheme OAuthFlows String :=
  { blank with Type_ := NodeReference.at "apiKey" 41 9, In := NodeReference.at "header" 42 7,
               Name := NodeReference.at "X-API-KEY" 43 9 }

/-- The scheme `type: apiKey, in: query, name: X-API-KEY`. -/
def apiKeyQuery : SecurityScheme OAuthFlows String :=
  { blank with Type_ := NodeReference.at "apiKey" 1 7, In := NodeReference.at "query" 2 5,
               Name := NodeReference.at "X-API-KEY" 3 7 }

/-- A scheme with two extensions, the loop visiting `x-a` first. -/
def twoExtensions : SecurityScheme OAuthFlows String :=
  { blank with
    Type_ := NodeReference.at "apiKey" 1 7,
    Extensions := [(NodeReference.at "x-a" 2 1, NodeReference.at "1" 2 6),
                   (NodeReference.at "x-b" 3 1, NodeReference.at "2" 3 6)] }

/-- The same scheme, the loop visiting `x-b` first. -/
def twoExtensionsOtherOrder : SecurityScheme OAuthFlows String :=
  { twoExtensions with Extensions := twoExtensions.Extensions.reverse }

end v3

namespace model

open low

/-! ## The totals of `ComponentsChanges` -/

theorem rangeAdd_eq {R : Type} (method : R → Int) (m : ChildMap R) (v : Int) :
    rangeAdd method m v = v + childSum method m := by
  cases m with
  | none => simp [rangeAdd, childSum]
  | some entries =>
    simp only [rangeAdd, childSum]
    induction entries generalizing v with
    | nil => simp
    | cons e es ih => simp only [List.foldl_cons, List.map_cons, List.sum_cons, ih]; ring

theorem childSum_perm {R : Type} (method : R → Int) (entries visited : List (String × R))
    (h : visited.Perm entries) :
    childSum method (some visited) = childSum method (some entries) := by
  simp only [childSum]
  exact (h.map _).sum_eq

theorem childSum_le_childSum {R : Type} (small big : R → Int) (m : ChildMap R)
    (h : ∀ entries, m = some entries → ∀ e ∈ entries, small e.2 ≤ big e.2) :
    childSum small m ≤ childSum big m := by
  cases m with
  | none => simp [childSum]
  | some entries =>
    simp only [childSum]
    have h1 := h entries rfl
    clear h
    induction entries with
    | nil => simp
    | cons e es ih =>
      simp only [List.map_cons, List.sum_cons]
      have h2 := h1 e (List.mem_cons_self _ _)
      have h3 := ih (fun x hx => h1 x (List.mem_cons_of_mem _ hx))
      omega

theorem childSum_nonneg {R : Type} (method : R → Int) (m : ChildMap R)
    (h : ∀ x, 0 ≤ method x) : 0 ≤ childSum method m := by
  cases m with
  | none => simp [childSum]
  | some entries =>
    simp only [childSum]
    induction entries with
    | nil => simp
    | cons e es ih =>
      simp only [List.map_cons, List.sum_cons]
      have h2 := h e.2
      omega

theorem TotalChanges_eq_sum {K : Kinds} (c : ComponentsChanges K) :
    c.TotalChanges =
      c.toPropertyChanges.TotalChanges
        + childSum ChangeSet.TotalChanges c.SchemaChanges
        + childSum ChangeSet.TotalChanges c.ResponsesChanges
        + childSum ChangeSet.TotalChanges c.ParameterChanges
        + childSum ChangeSet.TotalChanges c.ExamplesChanges
        + childSum ChangeSet.TotalChanges c.RequestBodyChanges
        + childSum ChangeSet.TotalChanges c.HeaderChanges
        + childSum ChangeSet.TotalChanges c.SecuritySchemeChanges
        + childSum ChangeSet.TotalChanges c.LinkChanges
        + childSum ChangeSet.TotalChanges c.CallbackChanges
        + nodeTotal ChangeSet.TotalChanges c.ExtensionChanges := by
  simp only [ComponentsChanges.TotalChanges, rangeAdd_eq]
  cases c.ExtensionChanges <;> simp [nodeTotal]

theorem TotalBreakingChanges_eq_sum {K : Kinds} (c : ComponentsChanges K) :
    c.TotalBreakingChanges =
      c.toPropertyChanges.TotalBreakingChanges
        + childSum ChangeSet.TotalBreakingChanges c.SchemaChanges
        + childSum ChangeSet.TotalBreakingChanges c.ResponsesChanges
        + childSum ChangeSet.TotalBreakingChanges c.ParameterChanges
        + childSum ChangeSet.TotalBreakingChanges c.ExamplesChanges
        + childSum ChangeSet.TotalBreakingChanges c.RequestBodyChanges
        + childSum ChangeSet.TotalBreakingChanges c.HeaderChanges
        + childSum ChangeSet.TotalBreakingChanges c.SecuritySchemeChanges
        + childSum ChangeSet.TotalBreakingChanges c.LinkChanges
        + childSum ChangeSet.TotalBreakingChanges c.CallbackChanges
        + nodeTotal ChangeSet.TotalBreakingChanges c.ExtensionChanges := by
  simp only [ComponentsChanges.TotalBreakingChanges, rangeAdd_eq]
  cases c.ExtensionChanges <;> simp [nodeTotal]

/-- C2: for every `ComponentsChanges` value, `TotalChanges()` is the total of its own
`PropertyChanges` plus the `TotalChanges()` of every entry of each of the nine child maps plus
the `TotalChanges()` of `ExtensionChanges`; `TotalBreakingChanges()` is the same sum taken over
`TotalBreakingChanges()`; an absent (`nil`) child map and an absent (`nil`) `ExtensionChanges`
contribute zero (the last two conjuncts, for either method). -/
theorem ComponentsChanges_totals_are_sums {K : Kinds} (c : ComponentsChanges K) :
    (c.TotalChanges =
      c.toPropertyChanges.TotalChanges
        + childSum ChangeSet.TotalChanges c.SchemaChanges
        + childSum ChangeSet.TotalChanges c.ResponsesChanges
        + childSum ChangeSet.TotalChanges c.ParameterChanges
        + childSum ChangeSet.TotalChanges c.ExamplesChanges
        + childSum ChangeSet.TotalChanges c.RequestBodyChanges
        + childSum ChangeSet.TotalChanges c.HeaderChanges
        + childSum ChangeSet.TotalChanges c.SecuritySchemeChanges
        + childSum ChangeSet.TotalChanges c.LinkChanges
        + childSum ChangeSet.TotalChanges c.CallbackChanges
        + nodeTotal ChangeSet.TotalChanges c.ExtensionChanges)
    ∧ (c.TotalBreakingChanges =
      c.toPropertyChanges.TotalBreakingChanges
        + childSum ChangeSet.TotalBreakingChanges c.SchemaChanges
        + childSum ChangeSet.TotalBreakingChanges c.ResponsesChanges
        + childSum ChangeSet.TotalBreakingChanges c.ParameterChanges
        + childSum ChangeSet.TotalBreakingChanges c.ExamplesChanges
        + childSum ChangeSet.TotalBreakingChanges c.RequestBodyChanges
        + childSum ChangeSet.TotalBreakingChanges c.HeaderChanges
        + childSum ChangeSet.TotalBreakingChanges c.SecuritySchemeChanges
        + childSum ChangeSet.TotalBreakingChanges c.LinkChanges
        + childSum ChangeSet.TotalBreakingChanges c.CallbackChanges
        + nodeTotal ChangeSet.TotalBreakingChanges c.ExtensionChanges)
    ∧ (∀ (R : Type) (method : R → Int) (entries : List (String × R)),
        childSum method none = 0
        ∧ childSum method (some entries) = (entries.map (fun e => method e.2)).sum)
    ∧ (∀ (X : Type) (method : X → Int) (x : X),
        nodeTotal method none = 0 ∧ nodeTotal method (some x) = method x) :=
  ⟨TotalChanges_eq_sum c, TotalBreakingChanges_eq_sum c,
    fun _ _ _ => ⟨rfl, rfl⟩, fun _ _ _ => ⟨rfl, rfl⟩⟩

/-- C4: a `ComponentsChanges` value whose own `PropertyChanges`, whose every entry of the nine
child maps and whose `ExtensionChanges` satisfy `TotalBreakingChanges() <= TotalChanges()`
satisfies `TotalBreakingChanges() <= TotalChanges()` itself. -/
theorem ComponentsChanges_breaking_le_total {K : Kinds} (c : ComponentsChanges K)
    (hOwn : c.toPropertyChanges.TotalBreakingChanges ≤ c.toPropertyChanges.TotalChanges)
    (hSchema : ∀ m, c.SchemaChanges = some m → ∀ e ∈ m,
      ChangeSet.TotalBreakingChanges e.2 ≤ ChangeSet.TotalChanges e.2)
    (hResponse : ∀ m, c.ResponsesChanges = some m → ∀ e ∈ m,
      ChangeSet.TotalBreakingChanges e.2 ≤ ChangeSet.TotalChanges e.2)
    (hParameter : ∀ m, c.ParameterChanges = some m → ∀ e ∈ m,
      ChangeSet.TotalBreakingChanges e.2 ≤ ChangeSet.TotalChanges e.2)
    (hExample : ∀ m, c.ExamplesChanges = some m → ∀ e ∈ m,
      ChangeSet.TotalBreakingChanges e.2 ≤ ChangeSet.TotalChanges e.2)
    (hRequestBody : ∀ m, c.RequestBodyChanges = some m → ∀ e ∈ m,
      ChangeSet.TotalBreakingChanges e.2 ≤ ChangeSet.TotalChanges e.2)
    (hHeader : ∀ m, c.HeaderChanges = some m → ∀ e ∈ m,
      ChangeSet.TotalBreakingChanges e.2 ≤ ChangeSet.TotalChanges e.2)
    (hSecurityScheme : ∀ m, c.SecuritySchemeChanges = some m → ∀ e ∈ m,
      ChangeSet.TotalBreakingChanges e.2 ≤ ChangeSet.TotalChanges e.2)
    (hLink : ∀ m, c.LinkChanges = some m → ∀ e ∈ m,
      ChangeSet.TotalBreakingChanges e.2 ≤ ChangeSet.TotalChanges e.2)
    (hCallback : ∀ m, c.CallbackChanges = some m → ∀ e ∈ m,
      ChangeSet.TotalBreakingChanges e.2 ≤ ChangeSet.TotalChanges e.2)
    (hExtension : ∀ x, c.ExtensionChanges = some x →
      ChangeSet.TotalBreakingChanges x ≤ ChangeSet.TotalChanges x) :
    c.TotalBreakingChanges ≤ c.TotalChanges := by
  rw [TotalBreakingChanges_eq_sum, TotalChanges_eq_sum]
  have h1 := childSum_le_childSum _ _ c.SchemaChanges hSchema
  have h2 := childSum_le_childSum _ _ c.ResponsesChanges hResponse
  have h3 := childSum_le_childSum _ _ c.ParameterChanges hParameter
  have h4 := childSum_le_childSum _ _ c.ExamplesChanges hExample
  have h5 := childSum_le_childSum _ _ c.RequestBodyChanges hRequestBody
  have h6 := childSum_le_childSum _ _ c.HeaderChanges hHeader
  have h7 := childSum_le_childSum _ _ c.SecuritySchemeChanges hSecurityScheme
  have h8 := childSum_le_childSum _ _ c.LinkChanges hLink
  have h9 := childSum_le_childSum _ _ c.CallbackChanges hCallback
  have h10 : nodeTotal ChangeSet.TotalBreakingChanges c.ExtensionChanges
      ≤ nodeTotal ChangeSet.TotalChanges c.ExtensionChanges := by
    cases hx : c.ExtensionChanges with
    | none => simp [nodeTotal]
    | some x => simpa [nodeTotal] using hExtension x hx
  omega

end model

namespace model

open low

/-! ## The fan-in loop -/

/-- Pairwise distinct labels, spelled out in both directions. -/
theorem Labels.ne_of_nodup (L : Labels) (h : L.nine.Nodup) :
    (L.SchemasLabel ≠ L.ResponsesLabel ∧ L.SchemasLabel ≠ L.ParametersLabel
      ∧ L.SchemasLabel ≠ L.ExamplesLabel ∧ L.SchemasLabel ≠ L.RequestBodiesLabel
      ∧ L.SchemasLabel ≠ L.HeadersLabel ∧ L.SchemasLabel ≠ L.SecuritySchemesLabel
      ∧ L.SchemasLabel ≠ L.LinksLabel ∧ L.SchemasLabel ≠ L.CallbacksLabel)
    ∧ (L.ResponsesLabel ≠ L.ParametersLabel
      ∧ L.ResponsesLabel ≠ L.ExamplesLabel ∧ L.ResponsesLabel ≠ L.RequestBodiesLabel
      ∧ L.ResponsesLabel ≠ L.HeadersLabel ∧ L.ResponsesLabel ≠ L.SecuritySchemesLabel
      ∧ L.ResponsesLabel ≠ L.LinksLabel ∧ L.ResponsesLabel ≠ L.CallbacksLabel)
    ∧ (L.ParametersLabel ≠ L.ExamplesLabel ∧ L.ParametersLabel ≠ L.RequestBodiesLabel
      ∧ L.ParametersLabel ≠ L.HeadersLabel ∧ L.ParametersLabel ≠ L.SecuritySchemesLabel
      ∧ L.ParametersLabel ≠ L.LinksLabel ∧ L.ParametersLabel ≠ L.CallbacksLabel)
    ∧ (L.ExamplesLabel ≠ L.RequestBodiesLabel
      ∧ L.ExamplesLabel ≠ L.HeadersLabel ∧ L.ExamplesLabel ≠ L.SecuritySchemesLabel
      ∧ L.ExamplesLabel ≠ L.LinksLabel ∧ L.ExamplesLabel ≠ L.CallbacksLabel)
    ∧ (L.RequestBodiesLabel ≠ L.HeadersLabel ∧ L.RequestBodiesLabel ≠ L.SecuritySchemesLabel
      ∧ L.RequestBodiesLabel ≠ L.LinksLabel ∧ L.RequestBodiesLabel ≠ L.CallbacksLabel)
    ∧ (L.HeadersLabel ≠ L.SecuritySchemesLabel
      ∧ L.HeadersLabel ≠ L.LinksLabel ∧ L.HeadersLabel ≠ L.CallbacksLabel)
    ∧ (L.SecuritySchemesLabel ≠ L.LinksLabel ∧ L.SecuritySchemesLabel ≠ L.CallbacksLabel)
    ∧ L.LinksLabel ≠ L.CallbacksLabel := by
  simp only [Labels.nine, List.nodup_cons, List.mem_cons, List.mem_singleton, not_or,
    List.not_mem_nil, not_false_eq_true, List.nodup_nil, and_true] at h
  tauto

theorem fanInStep_of_wellSent {K : Kinds} (L : Labels) (hL : L.nine.Nodup)
    (res : componentComparison K) (h : WellSent L res) (cc : ComponentsChanges K) (n : Nat) :
    fanInStep L res (cc, n) = .ok (store L cc res, n + 1) := by
  obtain ⟨⟨a1, a2, a3, a4, a5, a6, a7, a8⟩, ⟨b2, b3, b4, b5, b6, b7, b8⟩,
    ⟨c3, c4, c5, c6, c7, c8⟩, ⟨d4, d5, d6, d7, d8⟩, ⟨e5, e6, e7, e8⟩, ⟨f6, f7, f8⟩,
    ⟨g7, g8⟩, h8⟩ := L.ne_of_nodup hL
  obtain ⟨p, r⟩ := res
  rcases h with ⟨h1, m, h2⟩ | ⟨h1, m, h2⟩ | ⟨h1, m, h2⟩ | ⟨h1, m, h2⟩ | ⟨h1, m, h2⟩
    | ⟨h1, m, h2⟩ | ⟨h1, m, h2⟩ | ⟨h1, m, h2⟩ | ⟨h1, m, h2⟩ <;>
  · simp only at h1 h2
    subst h1 h2
    simp [store, fanInStep, Ne.symm, *]

theorem store_comm {K : Kinds} (L : Labels) (hL : L.nine.Nodup)
    (x y : componentComparison K) (hx : WellSent L x) (hy : WellSent L y)
    (hxy : x.prop ≠ y.prop) (cc : ComponentsChanges K) :
    store L (store L cc x) y = store L (store L cc y) x := by
  obtain ⟨⟨a1, a2, a3, a4, a5, a6, a7, a8⟩, ⟨b2, b3, b4, b5, b6, b7, b8⟩,
    ⟨c3, c4, c5, c6, c7, c8⟩, ⟨d4, d5, d6, d7, d8⟩, ⟨e5, e6, e7, e8⟩, ⟨f6, f7, f8⟩,
    ⟨g7, g8⟩, h8⟩ := L.ne_of_nodup hL
  obtain ⟨p, r⟩ := x
  obtain ⟨q, s⟩ := y
  rcases hx with ⟨h1, m, h2⟩ | ⟨h1, m, h2⟩ | ⟨h1, m, h2⟩ | ⟨h1, m, h2⟩ | ⟨h1, m, h2⟩
    | ⟨h1, m, h2⟩ | ⟨h1, m, h2⟩ | ⟨h1, m, h2⟩ | ⟨h1, m, h2⟩ <;>
  rcases hy with ⟨h3, o, h4⟩ | ⟨h3, o, h4⟩ | ⟨h3, o, h4⟩ | ⟨h3, o, h4⟩ | ⟨h3, o, h4⟩
    | ⟨h3, o, h4⟩ | ⟨h3, o, h4⟩ | ⟨h3, o, h4⟩ | ⟨h3, o, h4⟩ <;>
  · simp only at h1 h2 h3 h4 hxy
    subst h1 h2 h3 h4
    first
      | exact absurd rfl hxy
      | simp [store, fanInStep, Ne.symm, *]

theorem store_field {K : Kinds} (L : Labels) (hL : L.nine.Nodup)
    (x : componentComparison K) (hx : WellSent L x) (cc : ComponentsChanges K) :
    (store L cc x).field L x.prop = some x.result
    ∧ ∀ label, label ≠ x.prop → (store L cc x).field L label = cc.field L label := by
  obtain ⟨⟨a1, a2, a3, a4, a5, a6, a7, a8⟩, ⟨b2, b3, b4, b5, b6, b7, b8⟩,
    ⟨c3, c4, c5, c6, c7, c8⟩, ⟨d4, d5, d6, d7, d8⟩, ⟨e5, e6, e7, e8⟩, ⟨f6, f7, f8⟩,
    ⟨g7, g8⟩, h8⟩ := L.ne_of_nodup hL
  obtain ⟨p, r⟩ := x
  rcases hx with ⟨h1, m, h2⟩ | ⟨h1, m, h2⟩ | ⟨h1, m, h2⟩ | ⟨h1, m, h2⟩ | ⟨h1, m, h2⟩
    | ⟨h1, m, h2⟩ | ⟨h1, m, h2⟩ | ⟨h1, m, h2⟩ | ⟨h1, m, h2⟩ <;>
  · simp only at h1 h2
    subst h1 h2
    refine ⟨by simp [store, fanInStep, ComponentsChanges.field, Ne.symm, *], ?_⟩
    intro label hne
    simp only at hne
    simp [store, fanInStep, ComponentsChanges.field, Ne.symm, *]

theorem fanIn_eq_foldl {K : Kinds} (L : Labels) (hL : L.nine.Nodup) (comparisons : Nat)
    (msgs : List (componentComparison K)) (hall : ∀ m ∈ msgs, WellSent L m)
    (cc : ComponentsChanges K) (n : Nat) (hlen : n + msgs.length = comparisons) :
    fanIn L comparisons msgs (cc, n)
      = .ok { cc := msgs.foldl (store L) cc, completedComponents := comparisons,
              unreceived := [] } := by
  induction msgs generalizing cc n with
  | nil =>
    simp only [List.length_nil, Nat.add_zero] at hlen
    simp [fanIn, hlen]
  | cons m rest ih =>
    simp only [List.length_cons] at hlen
    have hlt : n < comparisons := by omega
    have hm := hall m (List.mem_cons_self _ _)
    simp only [fanIn, hlt, if_true, fanInStep_of_wellSent L hL m hm cc n, List.foldl_cons]
    exact ih (fun x hx => hall x (List.mem_cons_of_mem _ hx)) _ _ (by omega)

theorem foldl_store_perm {K : Kinds} (L : Labels) (hL : L.nine.Nodup)
    (xs ys : List (componentComparison K)) (hp : xs.Perm ys)
    (hall : ∀ m ∈ xs, WellSent L m) (hnd : (xs.map (fun m => m.prop)).Nodup)
    (cc : ComponentsChanges K) :
    xs.foldl (store L) cc = ys.foldl (store L) cc := by
  refine List.Perm.foldl_eq' hp ?_ cc
  intro x hx y hy z
  by_cases hxy : x = y
  · subst hxy; rfl
  · have hne : x.prop ≠ y.prop := by
      intro heq
      exact hxy (List.inj_on_of_nodup_map hnd hx hy heq)
    exact store_comm L hL x y (hall x hx) (hall y hy) hne z

theorem foldl_store_field {K : Kinds} (L : Labels) (hL : L.nine.Nodup)
    (xs : List (componentComparison K)) (hall : ∀ m ∈ xs, WellSent L m)
    (hnd : (xs.map (fun m => m.prop)).Nodup) (cc : ComponentsChanges K) :
    (∀ m ∈ xs, (xs.foldl (store L) cc).field L m.prop = some m.result)
    ∧ ∀ label, label ∉ xs.map (fun m => m.prop) →
        (xs.foldl (store L) cc).field L label = cc.field L label := by
  induction xs generalizing cc with
  | nil => simp
  | cons x rest ih =>
    simp only [List.map_cons, List.nodup_cons] at hnd
    have hx := hall x (List.mem_cons_self _ _)
    have hrest := ih (fun m hm => hall m (List.mem_cons_of_mem _ hm)) hnd.2 (store L cc x)
    have hsf := store_field L hL x hx cc
    refine ⟨?_, ?_⟩
    · intro m hm
      simp only [List.foldl_cons]
      rcases List.mem_cons.1 hm with rfl | hm
      · rw [hrest.2 _ hnd.1]; exact hsf.1
      · exact hrest.1 m hm
    · intro label hlabel
      simp only [List.map_cons, List.mem_cons, not_or] at hlabel
      simp only [List.foldl_cons]
      rw [hrest.2 _ hlabel.2]
      exact hsf.2 label hlabel.1

/-! ## The dispatch phase -/

/-- What the dispatch statements maintain: the counter equals the number of goroutines, the
values they send are well-typed, and their labels follow the order of `ls`. -/
theorem goIf_invariant {K : Kinds} (L : Labels) (s : Spawned K) (ls : List String)
    (guard : Bool) (w : WorkerRun K) (hw : WellSent L w.sent)
    (h : s.comparisons = s.workers.length ∧ (∀ x ∈ s.workers, WellSent L x.sent)
      ∧ (s.workers.map (fun x => x.sent.prop)).Sublist ls) :
    (s.goIf guard w).comparisons = (s.goIf guard w).workers.length
    ∧ (∀ x ∈ (s.goIf guard w).workers, WellSent L x.sent)
    ∧ ((s.goIf guard w).workers.map (fun x => x.sent.prop)).Sublist (ls ++ [w.sent.prop]) := by
  obtain ⟨h1, h2, h3⟩ := h
  cases guard with
  | false =>
    simp only [Spawned.goIf, Bool.false_eq_true, if_false]
    exact ⟨h1, h2, h3.trans (List.sublist_append_left _ _)⟩
  | true =>
    simp only [Spawned.goIf, if_true, List.length_append, List.length_singleton,
      List.map_append, List.map_cons, List.map_nil]
    refine ⟨by omega, ?_, List.Sublist.append h3 (List.Sublist.refl _)⟩
    intro x hx
    rcases List.mem_append.1 hx with hx | hx
    · exact h2 x hx
    · simp only [List.mem_singleton] at hx
      subst hx; exact hw

theorem dispatch_invariant {K : Kinds} (repo : Repo K) (lC rC : v3.Components K) :
    (dispatch repo lC rC).comparisons = (dispatch repo lC rC).workers.length
    ∧ (∀ x ∈ (dispatch repo lC rC).workers, WellSent repo.labels x.sent)
    ∧ ((dispatch repo lC rC).workers.map (fun x => x.sent.prop)).Sublist repo.labels.nine := by
  have h0 : (({ comparisons := 0, workers := [] } : Spawned K).comparisons
        = ({ comparisons := 0, workers := [] } : Spawned K).workers.length)
      ∧ (∀ x ∈ ({ comparisons := 0, workers := [] } : Spawned K).workers,
          WellSent repo.labels x.sent)
      ∧ (({ comparisons := 0, workers := [] } : Spawned K).workers.map
          (fun x => x.sent.prop)).Sublist [] := by
    simp
  have h1 := goIf_invariant repo.labels _ _ (dispatchGuard lC.Schemas rC.Schemas)
    (runComparison repo lC.Schemas.Value rC.Schemas.Value
      repo.labels.SchemasLabel repo.CompareSchemas AnyResult.ofSchemaChanges)
    (by simp [WellSent, runComparison]) h0
  have h2 := goIf_invariant repo.labels _ _ (dispatchGuard lC.Responses rC.Responses)
    (runComparison repo lC.Responses.Value rC.Responses.Value
      repo.labels.ResponsesLabel repo.CompareResponseV3 AnyResult.ofResponseChanges)
    (by simp [WellSent, runComparison]) h1
  have h3 := goIf_invariant repo.labels _ _ (dispatchGuard lC.Parameters rC.Parameters)
    (runComparison repo lC.Parameters.Value rC.Parameters.Value
      repo.labels.ParametersLabel repo.CompareParametersV3 AnyResult.ofParameterChanges)
    (by simp [WellSent, runComparison]) h2
  have h4 := goIf_invariant repo.labels _ _ (dispatchGuard lC.Examples rC.Examples)
    (runComparison repo lC.Examples.Value rC.Examples.Value
      repo.labels.ExamplesLabel repo.CompareExamples AnyResult.ofExampleChanges)
    (by simp [WellSent, runComparison]) h3
  have h5 := goIf_invariant repo.labels _ _ (dispatchGuard lC.RequestBodies rC.RequestBodies)
    (runComparison repo lC.RequestBodies.Value rC.RequestBodies.Value
      repo.labels.RequestBodiesLabel repo.CompareRequestBodies AnyResult.ofRequestBodyChanges)
    (by simp [WellSent, runComparison]) h4
  have h6 := goIf_invariant repo.labels _ _ (dispatchGuard lC.Headers rC.Headers)
    (runComparison repo lC.Headers.Value rC.Headers.Value
      repo.labels.HeadersLabel repo.CompareHeadersV3 AnyResult.ofHeaderChanges)
    (by simp [WellSent, runComparison]) h5
  have h7 := goIf_invariant repo.labels _ _
    (dispatchGuard lC.SecuritySchemes rC.SecuritySchemes)
    (runComparison repo lC.SecuritySchemes.Value rC.SecuritySchemes.Value
      repo.labels.SecuritySchemesLabel repo.CompareSecuritySchemesV3
      AnyResult.ofSecuritySchemeChanges)
    (by simp [WellSent, runComparison]) h6
  have h8 := goIf_invariant repo.labels _ _ (dispatchGuard lC.Links rC.Links)
    (runComparison repo lC.Links.Value rC.Links.Value
      repo.labels.LinksLabel repo.CompareLinks AnyResult.ofLinkChanges)
    (by simp [WellSent, runComparison]) h7
  have h9 := goIf_invariant repo.labels _ _ (dispatchGuard lC.Callbacks rC.Callbacks)
    (runComparison repo lC.Callbacks.Value rC.Callbacks.Value
      repo.labels.CallbacksLabel repo.CompareCallback AnyResult.ofCallbackChanges)
    (by simp [WellSent, runComparison]) h8
  exact h9

end model
namespace model

open low

/-! ## Schedules -/

theorem arrivalOrder_perm (n : Nat) (arrivals : List Nat) :
    (arrivalOrder n arrivals).Perm (List.range n) := by
  have hnd : (arrivalOrder n arrivals).Nodup := by
    unfold arrivalOrder
    refine List.Nodup.append (List.nodup_dedup _) ((List.nodup_range n).filter _) ?_
    intro x hx hy
    have h1 : x ∈ arrivals := (List.mem_filter.1 (List.mem_dedup.1 hx)).1
    have h2 := (List.mem_filter.1 hy).2
    simp only [decide_eq_true_eq] at h2
    exact h2 h1
  refine (List.perm_ext_iff_of_nodup hnd (List.nodup_range n)).2 ?_
  intro x
  simp only [arrivalOrder, List.mem_append, List.mem_dedup, List.mem_filter, List.mem_range,
    decide_eq_true_eq]
  constructor
  · rintro (⟨_, h⟩ | ⟨h, _⟩) <;> exact h
  · intro h
    by_cases hx : x ∈ arrivals
    · exact Or.inl ⟨hx, h⟩
    · exact Or.inr ⟨h, hx⟩

theorem filterMap_range_getElem {α β : Type} (f : α → β) (l : List α) :
    (List.range l.length).filterMap (fun i => (l[i]?).map f) = l.map f := by
  induction l with
  | nil => simp
  | cons a l ih =>
    rw [List.length_cons, List.range_succ_eq_map, List.filterMap_cons]
    simp only [List.getElem?_cons_zero, Option.map_some', List.map_cons, List.filterMap_map]
    congr 1
    rw [← ih]
    congr 1
    funext i
    simp

theorem delivered_perm {K : Kinds} (workers : List (WorkerRun K)) (arrivals : List Nat) :
    (delivered workers arrivals).Perm (workers.map (fun w => w.sent)) := by
  unfold delivered
  have h := (arrivalOrder_perm workers.length arrivals).filterMap
    (fun i => (workers[i]?).map (fun w => w.sent))
  rw [filterMap_range_getElem] at h
  exact h

end model

namespace model

open low

/-! ## `CompareComponents` -/

theorem assemble_components {K : Kinds} (repo : Repo K) (hL : repo.labels.nine.Nodup)
    (sched : Schedule) (lC rC : v3.Components K) :
    assemble repo sched (.Components lC) (.Components rC)
      = .ok { (List.foldl (store repo.labels)
                { (Assembly.new : Assembly K).cc with
                  ExtensionChanges := repo.CompareExtensions lC.Extensions rC.Extensions }
                (delivered (dispatch repo lC rC).workers sched.arrivals)) with
              toPropertyChanges :=
                { Changes := interleave ((dispatch repo lC rC).workers.map
                    (fun w => w.appended)) sched.appends } } := by
  obtain ⟨h1, h2, h3⟩ := dispatch_invariant repo lC rC
  have hp := delivered_perm (dispatch repo lC rC).workers sched.arrivals
  have hall : ∀ m ∈ delivered (dispatch repo lC rC).workers sched.arrivals,
      WellSent repo.labels m := by
    intro m hm
    obtain ⟨w, hw, rfl⟩ := List.mem_map.1 (hp.mem_iff.1 hm)
    exact h2 w hw
  have hlen : 0 + (delivered (dispatch repo lC rC).workers sched.arrivals).length
      = (dispatch repo lC rC).comparisons := by
    rw [hp.length_eq, List.length_map, h1]; omega
  simp only [assemble, swaggerParameters, swaggerResponses, swaggerSchemas,
    swaggerSecurityDefinitions, openapiComponents]
  rw [fanIn_eq_foldl repo.labels hL _ _ hall _ 0 hlen]
  simp [Assembly.new]

theorem TotalChanges_new {K : Kinds} :
    ({ (Assembly.new : Assembly K).cc with
        toPropertyChanges := { Changes := (Assembly.new : Assembly K).changes } }
      : ComponentsChanges K).TotalChanges = 0 := by
  simp [Assembly.new, ComponentsChanges.TotalChanges, rangeAdd, PropertyChanges.TotalChanges]

theorem assemble_mismatch {K : Kinds} (repo : Repo K) (sched : Schedule) (l r : Container K)
    (h : l.TypeOf ≠ r.TypeOf) :
    assemble repo sched l r
      = .ok { (Assembly.new : Assembly K).cc with
              toPropertyChanges := { Changes := (Assembly.new : Assembly K).changes } } := by
  cases l <;> cases r <;>
    first
      | exact absurd rfl h
      | rfl

theorem assemble_ok {K : Kinds} (repo : Repo K) (hL : repo.labels.nine.Nodup)
    (sched : Schedule) (l r : Container K) :
    ∃ cc, assemble repo sched l r = .ok cc := by
  cases l <;> cases r <;>
    first
      | exact ⟨_, assemble_components repo hL sched _ _⟩
      | exact ⟨_, rfl⟩

theorem TotalChanges_eq_zero_iff {K : Kinds} (hK : K.countsNonneg) (cc : ComponentsChanges K) :
    cc.TotalChanges = 0 ↔
      (cc.toPropertyChanges.Changes = []
        ∧ childSum ChangeSet.TotalChanges cc.SchemaChanges = 0
        ∧ childSum ChangeSet.TotalChanges cc.ResponsesChanges = 0
        ∧ childSum ChangeSet.TotalChanges cc.ParameterChanges = 0
        ∧ childSum ChangeSet.TotalChanges cc.ExamplesChanges = 0
        ∧ childSum ChangeSet.TotalChanges cc.RequestBodyChanges = 0
        ∧ childSum ChangeSet.TotalChanges cc.HeaderChanges = 0
        ∧ childSum ChangeSet.TotalChanges cc.SecuritySchemeChanges = 0
        ∧ childSum ChangeSet.TotalChanges cc.LinkChanges = 0
        ∧ childSum ChangeSet.TotalChanges cc.CallbackChanges = 0
        ∧ nodeTotal ChangeSet.TotalChanges cc.ExtensionChanges = 0) := by
  obtain ⟨k1, k2, k3, k4, k5, k6, k7, k8, k9, k10⟩ := hK
  have h1 := childSum_nonneg _ cc.SchemaChanges k1
  have h2 := childSum_nonneg _ cc.ResponsesChanges k2
  have h3 := childSum_nonneg _ cc.ParameterChanges k3
  have h4 := childSum_nonneg _ cc.ExamplesChanges k4
  have h5 := childSum_nonneg _ cc.RequestBodyChanges k5
  have h6 := childSum_nonneg _ cc.HeaderChanges k6
  have h7 := childSum_nonneg _ cc.SecuritySchemeChanges k7
  have h8 := childSum_nonneg _ cc.LinkChanges k8
  have h9 := childSum_nonneg _ cc.CallbackChanges k9
  have h10 : 0 ≤ nodeTotal ChangeSet.TotalChanges cc.ExtensionChanges := by
    cases cc.ExtensionChanges with
    | none => simp [nodeTotal]
    | some x => exact k10 x
  have h0 : cc.toPropertyChanges.Changes = [] ↔ cc.toPropertyChanges.TotalChanges = 0 := by
    simp [PropertyChanges.TotalChanges]
  have h00 : 0 ≤ cc.toPropertyChanges.TotalChanges := by
    simp [PropertyChanges.TotalChanges]
  rw [TotalChanges_eq_sum, h0]
  omega

/-- C3: `CompareComponents` returns; it returns "no difference" (`nil`) exactly when the
aggregate it assembled has zero total changes, that is an empty change log of its own, zero
changes in each of the nine child maps and zero extension changes; and every aggregate it does
return is the assembled one and has `TotalChanges() >= 1`.  The labels are pairwise distinct
and the counts of the child change-sets are not negative. -/
theorem CompareComponents_nil_iff_no_changes {K : Kinds} (repo : Repo K)
    (hL : repo.labels.nine.Nodup) (hK : K.countsNonneg) (sched : Schedule)
    (l r : Container K) :
    ∃ cc, assemble repo sched l r = .ok cc
      ∧ (CompareComponents repo sched l r = .ok none ↔ cc.TotalChanges = 0)
      ∧ (cc.TotalChanges = 0 ↔
          (cc.toPropertyChanges.Changes = []
            ∧ childSum ChangeSet.TotalChanges cc.SchemaChanges = 0
            ∧ childSum ChangeSet.TotalChanges cc.ResponsesChanges = 0
            ∧ childSum ChangeSet.TotalChanges cc.ParameterChanges = 0
            ∧ childSum ChangeSet.TotalChanges cc.ExamplesChanges = 0
            ∧ childSum ChangeSet.TotalChanges cc.RequestBodyChanges = 0
            ∧ childSum ChangeSet.TotalChanges cc.HeaderChanges = 0
            ∧ childSum ChangeSet.TotalChanges cc.SecuritySchemeChanges = 0
            ∧ childSum ChangeSet.TotalChanges cc.LinkChanges = 0
            ∧ childSum ChangeSet.TotalChanges cc.CallbackChanges = 0
            ∧ nodeTotal ChangeSet.TotalChanges cc.ExtensionChanges = 0))
      ∧ (CompareComponents repo sched l r = .ok none
          ∨ CompareComponents repo sched l r = .ok (some cc))
      ∧ (∀ out, CompareComponents repo sched l r = .ok (some out) →
          out = cc ∧ 1 ≤ out.TotalChanges) := by
  obtain ⟨cc, hcc⟩ := assemble_ok repo hL sched l r
  have hz := TotalChanges_eq_zero_iff hK cc
  have hnn : 0 ≤ cc.TotalChanges := by
    obtain ⟨k1, k2, k3, k4, k5, k6, k7, k8, k9, k10⟩ := hK
    have h1 := childSum_nonneg _ cc.SchemaChanges k1
    have h2 := childSum_nonneg _ cc.ResponsesChanges k2
    have h3 := childSum_nonneg _ cc.ParameterChanges k3
    have h4 := childSum_nonneg _ cc.ExamplesChanges k4
    have h5 := childSum_nonneg _ cc.RequestBodyChanges k5
    have h6 := childSum_nonneg _ cc.HeaderChanges k6
    have h7 := childSum_nonneg _ cc.SecuritySchemeChanges k7
    have h8 := childSum_nonneg _ cc.LinkChanges k8
    have h9 := childSum_nonneg _ cc.CallbackChanges k9
    have h10 : 0 ≤ nodeTotal ChangeSet.TotalChanges cc.ExtensionChanges := by
      cases cc.ExtensionChanges with
      | none => simp [nodeTotal]
      | some x => exact k10 x
    have h00 : 0 ≤ cc.toPropertyChanges.TotalChanges := by
      simp [PropertyChanges.TotalChanges]
    rw [TotalChanges_eq_sum]
    omega
  refine ⟨cc, hcc, ?_, hz, ?_, ?_⟩
  · simp only [CompareComponents, hcc]
    by_cases h : cc.TotalChanges ≤ 0
    · simp only [h, if_true, true_iff]; omega
    · simp only [h, if_false]
      constructor
      · intro hx; cases hx
      · intro hx; omega
  · simp only [CompareComponents, hcc]
    by_cases h : cc.TotalChanges ≤ 0
    · simp [h]
    · simp [h]
  · intro out hout
    simp only [CompareComponents, hcc] at hout
    by_cases h : cc.TotalChanges ≤ 0
    · simp only [h, if_true] at hout; cases hout
    · simp only [h, if_false, Except.ok.injEq, Option.some.injEq] at hout
      subst hout
      exact ⟨rfl, by omega⟩

/-- C8, as the code has it: given a left and a right container of different kinds,
`CompareComponents` runs none of its comparisons and returns `nil`, the "no difference" result;
it has no failure result for the mismatch. -/
theorem CompareComponents_mismatch_is_nil {K : Kinds} (repo : Repo K) (sched : Schedule)
    (l r : Container K) (h : l.TypeOf ≠ r.TypeOf) :
    CompareComponents repo sched l r = .ok none := by
  simp only [CompareComponents, assemble_mismatch repo sched l r h, TotalChanges_new]
  simp

end model
namespace model

open low

/-- C9: in the fan-in loop of `CompareComponents`, with pairwise distinct labels, there is one
aggregate that the loop returns for every arrival order of the workers' results (every
permutation of the values the dispatched workers send, one per worker): each result is in the
field named by its label, the fields of the other labels are as before the loop, and the loop
ends having counted as many results as workers were dispatched, with no result left
unreceived. -/
theorem fanIn_same_for_every_arrival_order {K : Kinds} (repo : Repo K)
    (hL : repo.labels.nine.Nodup) (lC rC : v3.Components K) (cc0 : ComponentsChanges K) :
    ∃ cc : ComponentsChanges K,
      (∀ w ∈ (dispatch repo lC rC).workers,
        cc.field repo.labels w.sent.prop = some w.sent.result)
      ∧ (∀ label, label ∉ (dispatch repo lC rC).workers.map (fun w => w.sent.prop) →
        cc.field repo.labels label = cc0.field repo.labels label)
      ∧ (dispatch repo lC rC).comparisons = (dispatch repo lC rC).workers.length
      ∧ ∀ arriving : List (componentComparison K),
        arriving.Perm ((dispatch repo lC rC).workers.map (fun w => w.sent)) →
        fanIn repo.labels (dispatch repo lC rC).comparisons arriving (cc0, 0)
          = .ok { cc := cc, completedComponents := (dispatch repo lC rC).workers.length,
                  unreceived := [] } := by
  obtain ⟨h1, h2, h3⟩ := dispatch_invariant repo lC rC
  have hall : ∀ m ∈ (dispatch repo lC rC).workers.map (fun w => w.sent),
      WellSent repo.labels m := by
    intro m hm
    obtain ⟨w, hw, rfl⟩ := List.mem_map.1 hm
    exact h2 w hw
  have hnd : (((dispatch repo lC rC).workers.map (fun w => w.sent)).map
      (fun m => m.prop)).Nodup := by
    rw [List.map_map]
    exact h3.nodup hL
  have hf := foldl_store_field repo.labels hL _ hall hnd cc0
  refine ⟨((dispatch repo lC rC).workers.map (fun w => w.sent)).foldl (store repo.labels) cc0,
    ?_, ?_, h1, ?_⟩
  · intro w hw
    exact hf.1 w.sent (List.mem_map_of_mem _ hw)
  · intro label hlabel
    apply hf.2
    rw [List.map_map]
    exact hlabel
  · intro arriving hp
    have hall2 : ∀ m ∈ arriving, WellSent repo.labels m :=
      fun m hm => hall m (hp.mem_iff.1 hm)
    have hlen : 0 + arriving.length = (dispatch repo lC rC).comparisons := by
      rw [hp.length_eq, List.length_map, h1]; omega
    rw [fanIn_eq_foldl repo.labels hL _ _ hall2 cc0 0 hlen, h1,
      foldl_store_perm repo.labels hL _ _ hp.symm hall hnd cc0]

/-! ## The code on concrete inputs -/

theorem leafKinds_countsNonneg : leafKinds.countsNonneg := by
  have h : ∀ x : Option PropertyChanges, 0 ≤ nodeTotal PropertyChanges.TotalChanges x := by
    intro x
    cases x with
    | none => simp [nodeTotal]
    | some p => simp [nodeTotal, PropertyChanges.TotalChanges]
  refine ⟨h, h, h, h, h, h, h, h, h, ?_⟩
  intro x
  show 0 ≤ PropertyChanges.TotalChanges x
  simp [PropertyChanges.TotalChanges]

/-- C1, the code at the failing input: the left container has no sub-collection at all and the
right one has schemas only.  The guard `!l.IsEmpty() || r.IsEmpty()` is false for the schemas
(empty on the left, non-empty on the right) and true for each of the eight kinds that are empty
on both sides: eight workers are dispatched, none of them for the schemas, and the call returns
"no difference" although a schema was added. -/
theorem dispatch_skips_kind_present_on_right_only :
    dispatchGuard emptyComponents.Schemas oneSchema.Schemas = false
    ∧ dispatchGuard emptyComponents.Responses oneSchema.Responses = true
    ∧ (dispatch leafRepo emptyComponents oneSchema).comparisons = 8
    ∧ (dispatch leafRepo emptyComponents oneSchema).workers.map (fun w => w.sent.prop)
        = ["responses", "parameters", "examples", "requestBodies", "headers",
           "securitySchemes", "links", "callbacks"]
    ∧ CompareComponents leafRepo inProgramOrder (.Components emptyComponents)
        (.Components oneSchema) = .ok none := by
  refine ⟨by decide, by decide, by decide, by decide, rfl⟩

/-- C3 at a concrete input: the revision of the store, second worker first. -/
theorem CompareComponents_nil_iff_no_changes_witness :
    fieldLabels.nine.Nodup ∧ leafKinds.countsNonneg
    ∧ ∃ cc, assemble leafRepo secondWorkerFirst (.Components storeBefore)
          (.Components storeAfter) = .ok cc
        ∧ (CompareComponents leafRepo secondWorkerFirst (.Components storeBefore)
            (.Components storeAfter) = .ok none ↔ cc.TotalChanges = 0)
        ∧ (∀ out, CompareComponents leafRepo secondWorkerFirst (.Components storeBefore)
            (.Components storeAfter) = .ok (some out) → out = cc ∧ 1 ≤ out.TotalChanges) := by
  refine ⟨by decide, leafKinds_countsNonneg, ?_⟩
  obtain ⟨cc, h1, h2, _, _, h5⟩ :=
    CompareComponents_nil_iff_no_changes leafRepo (by decide) leafKinds_countsNonneg
      secondWorkerFirst (.Components storeBefore) (.Components storeAfter)
  exact ⟨cc, h1, h2, h5⟩

/-- C4 at a concrete input: an aggregate with three changes, two of them breaking. -/
theorem ComponentsChanges_breaking_le_total_witness :
    sampleAggregate.TotalChanges = 3 ∧ sampleAggregate.TotalBreakingChanges = 2
    ∧ sampleAggregate.TotalBreakingChanges ≤ sampleAggregate.TotalChanges :=
  ⟨by decide, by decide,
    ComponentsChanges_breaking_le_total sampleAggregate (by decide)
      (by intro m hm e he
          have h : m = [("Pet", compareLeaf "name" "title")] := by
            have h2 : some [("Pet", compareLeaf "name" "title")] = some m := hm
            exact (Option.some.inj h2).symm
          subst h
          simp only [List.mem_singleton] at he
          subst he
          decide)
      (by intro m hm; cases hm) (by intro m hm; cases hm) (by intro m hm; cases hm)
      (by intro m hm; cases hm) (by intro m hm; cases hm) (by intro m hm; cases hm)
      (by intro m hm; cases hm) (by intro m hm; cases hm)
      (by intro x hx
          have h2 : some ({ Changes := [addedRecord "extensions" "x-internal-id" 1] }
              : PropertyChanges) = some x := hx
          cases h2
          decide)⟩

/-- C8, the claim refuted: a v2 definitions container on the left and a v3 components container
on the right give `nil` without any failure, the very result of comparing the v3 container with
itself. -/
theorem CompareComponents_mismatch_counterexample :
    (Container.Definitions swaggerDefinitions : Container leafKinds).TypeOf
        ≠ (Container.Components storeAfter : Container leafKinds).TypeOf
    ∧ CompareComponents leafRepo inProgramOrder (.Definitions swaggerDefinitions)
        (.Components storeAfter) = .ok none
    ∧ CompareComponents leafRepo inProgramOrder (.Components storeAfter)
        (.Components storeAfter) = .ok none
    ∧ CompareComponents leafRepo inProgramOrder (.Definitions swaggerDefinitions)
        (.Components storeAfter)
      = CompareComponents leafRepo inProgramOrder (.Components storeAfter)
        (.Components storeAfter) :=
  ⟨by decide, rfl, rfl, rfl⟩

/-- C8 (as the code has it) at a concrete input. -/
theorem CompareComponents_mismatch_is_nil_witness :
    (Container.Definitions swaggerDefinitions : Container leafKinds).TypeOf
        ≠ (Container.Components storeAfter : Container leafKinds).TypeOf
    ∧ CompareComponents leafRepo secondWorkerFirst (.Definitions swaggerDefinitions)
        (.Components storeAfter) = .ok none :=
  ⟨by decide, CompareComponents_mismatch_is_nil leafRepo secondWorkerFirst _ _ (by decide)⟩

/-- C9 at a concrete input: the workers dispatched for the revision of the store. -/
theorem fanIn_same_for_every_arrival_order_witness :
    fieldLabels.nine.Nodup
    ∧ ∃ cc : ComponentsChanges leafKinds,
      (∀ w ∈ (dispatch leafRepo storeBefore storeAfter).workers,
        cc.field leafRepo.labels w.sent.prop = some w.sent.result)
      ∧ ∀ arriving : List (componentComparison leafKinds),
        arriving.Perm ((dispatch leafRepo storeBefore storeAfter).workers.map
          (fun w => w.sent)) →
        fanIn leafRepo.labels (dispatch leafRepo storeBefore storeAfter).comparisons arriving
            ((Assembly.new : Assembly leafKinds).cc, 0)
          = .ok { cc := cc,
                  completedComponents := (dispatch leafRepo storeBefore storeAfter).workers.length,
                  unreceived := [] } := by
  refine ⟨by decide, ?_⟩
  obtain ⟨cc, h1, _, _, h4⟩ :=
    fanIn_same_for_every_arrival_order leafRepo (by decide) storeBefore storeAfter
      (Assembly.new : Assembly leafKinds).cc
  exact ⟨cc, h1, h4⟩

/-- C10, the code at the failing input: the same pair compared twice, the workers running one
after another both times.  When the schema worker runs before the response worker the log lists
the schema records before the response record; when the response worker runs first, the
response record comes first.  The workers append to one shared log in whatever order they are
scheduled, so the two runs return different change logs. -/
theorem change_log_depends_on_schedule :
    changeLog (CompareComponents leafRepo inProgramOrder (.Components storeBefore)
        (.Components storeAfter))
      = [removedRecord "schemas" "Error" 2, addedRecord "schemas" "Order" 2,
         addedRecord "responses" "Gone" 2]
    ∧ changeLog (CompareComponents leafRepo secondWorkerFirst (.Components storeBefore)
        (.Components storeAfter))
      = [addedRecord "responses" "Gone" 2, removedRecord "schemas" "Error" 2,
         addedRecord "schemas" "Order" 2]
    ∧ changeLog (CompareComponents leafRepo inProgramOrder (.Components storeBefore)
        (.Components storeAfter))
      ≠ changeLog (CompareComponents leafRepo secondWorkerFirst (.Components storeBefore)
        (.Components storeAfter)) :=
  ⟨by decide, by decide, by decide⟩

end model

namespace v3

open low

/-! ## `SecurityScheme.Build` -/

/-- C7, as the code has it: when building the nested `OAuthFlows` object fails, `Build` returns
that build error and leaves `Flows` and the other seven fields of the receiver as they were,
but it has already replaced `Extensions` by the extensions extracted from the node. -/
theorem Build_error_keeps_flows_replaces_extensions {F A N I : Type} (lib : Lib F A N I)
    (ss : SecurityScheme F A) (root : N) (idx : I) (e : BuildError)
    (h : (lib.ExtractObject lib.OAuthFlowsLabel root idx).2 = some e) :
    (ss.Build lib root idx).2 = some e
    ∧ (ss.Build lib root idx).1 = { ss with Extensions := lib.ExtractExtensions root }
    ∧ (ss.Build lib root idx).1.Flows = ss.Flows := by
  simp [SecurityScheme.Build, h]

/-- C7 (as the code has it) at a concrete input: a node whose `flows` is a scalar. -/
theorem Build_error_keeps_flows_replaces_extensions_witness :
    (specLib.ExtractObject specLib.OAuthFlowsLabel malformedFlows ()).2
        = some { message := "object extraction failed", Line := 2, Column := 8 }
    ∧ (blank.Build specLib malformedFlows ()).2
        = some { message := "object extraction failed", Line := 2, Column := 8 }
    ∧ (blank.Build specLib malformedFlows ()).1.Flows = blank.Flows :=
  ⟨by decide,
    (Build_error_keeps_flows_replaces_extensions specLib blank malformedFlows ()
      { message := "object extraction failed", Line := 2, Column := 8 } (by decide)).1,
    (Build_error_keeps_flows_replaces_extensions specLib blank malformedFlows ()
      { message := "object extraction failed", Line := 2, Column := 8 } (by decide)).2.2⟩

/-- C7, the claim refuted: `Build` on a node whose `flows` is malformed returns the build
error, and the receiver, which had no extension before the call, holds the extension
`x-internal-id` after it. -/
theorem Build_error_modifies_receiver :
    (blank.Build specLib malformedFlows ()).2
        = some { message := "object extraction failed", Line := 2, Column := 8 }
    ∧ blank.Extensions = []
    ∧ (blank.Build specLib malformedFlows ()).1.Extensions
        = [(NodeReference.at "x-internal-id" 3 1, NodeReference.at "42" 3 16)]
    ∧ (blank.Build specLib malformedFlows ()).1.Extensions ≠ blank.Extensions :=
  ⟨by decide, by decide, by decide, by decide⟩

/-! ## `SecurityScheme.Hash` -/

/-- The tokens of the present fields, in declaration order, then those of the extensions. -/
theorem appendIfPresent_eq (f : List String) (n : NodeReference String) :
    appendIfPresent f n = f ++ (if n.IsEmpty then [] else [n.Value]) := by
  unfold appendIfPresent
  cases n.IsEmpty <;> simp

theorem foldl_extensionToken {A : Type} (Sprint : A → String) (m : RefMap A)
    (f : List String) :
    m.foldl (fun f e => f ++ [extensionToken Sprint e]) f
      = f ++ m.map (extensionToken Sprint) := by
  induction m generalizing f with
  | nil => simp
  | cons e es ih => simp [ih]

theorem tokens_eq {F A N I : Type} (lib : Lib F A N I) (ss : SecurityScheme F A) :
    ss.tokens lib =
      (if ss.Type_.IsEmpty then [] else [ss.Type_.Value])
      ++ ((if ss.Description.IsEmpty then [] else [ss.Description.Value])
      ++ ((if ss.Name.IsEmpty then [] else [ss.Name.Value])
      ++ ((if ss.In.IsEmpty then [] else [ss.In.Value])
      ++ ((if ss.Scheme.IsEmpty then [] else [ss.Scheme.Value])
      ++ ((if ss.BearerFormat.IsEmpty then [] else [ss.BearerFormat.Value])
      ++ ((if ss.Flows.IsEmpty then [] else [lib.GenerateHashString ss.Flows.Value])
      ++ ((if ss.OpenIdConnectUrl.IsEmpty then [] else [ss.OpenIdConnectUrl.Value])
      ++ ss.Extensions.map (extensionToken lib.Sprint)))))))) := by
  simp only [SecurityScheme.tokens, appendIfPresent_eq, foldl_extensionToken]
  cases ss.Flows.IsEmpty <;> simp

theorem fieldToken_eq_of_sameField (x y : NodeReference String) (h : sameField x y) :
    (if x.IsEmpty then [] else [x.Value]) = (if y.IsEmpty then ([] : List String)
      else [y.Value]) := by
  obtain ⟨h1, h2⟩ := h
  rw [← h1]
  cases hx : x.IsEmpty with
  | true => simp
  | false => simp [h2 hx]

theorem extensionTokens_eq_of_entries {A : Type} (Sprint : A → String) (m1 m2 : RefMap A)
    (h : entriesOf m1 = entriesOf m2) :
    m1.map (extensionToken Sprint) = m2.map (extensionToken Sprint) := by
  have h1 : ∀ m : RefMap A, m.map (extensionToken Sprint)
      = (entriesOf m).map (fun p => p.1 ++ "-" ++ Sprint p.2) := by
    intro m
    simp [entriesOf, extensionToken, Function.comp_def]
  rw [h1, h1, h]

theorem tokens_eq_of_sameContent {F A N I : Type} (lib : Lib F A N I)
    (x y : SecurityScheme F A) (h : SameContent x y) : x.tokens lib = y.tokens lib := by
  obtain ⟨h1, h2, h3, h4, h5, h6, h7, h8, h9⟩ := h
  rw [tokens_eq, tokens_eq, fieldToken_eq_of_sameField _ _ h1,
    fieldToken_eq_of_sameField _ _ h2, fieldToken_eq_of_sameField _ _ h3,
    fieldToken_eq_of_sameField _ _ h4, fieldToken_eq_of_sameField _ _ h5,
    fieldToken_eq_of_sameField _ _ h6, fieldToken_eq_of_sameField _ _ h8,
    extensionTokens_eq_of_entries lib.Sprint _ _ h9]
  have hf : (if x.Flows.IsEmpty then [] else [lib.GenerateHashString x.Flows.Value])
      = (if y.Flows.IsEmpty then ([] : List String)
          else [lib.GenerateHashString y.Flows.Value]) := by
    obtain ⟨g1, g2⟩ := h7
    rw [← g1]
    cases hx : x.Flows.IsEmpty with
    | true => simp
    | false => simp [g2 hx]
  rw [hf]

theorem chars_split_at_bar (a b r s : List Char) (ha : '|' ∉ a) (hb : '|' ∉ b)
    (h : a ++ '|' :: r = b ++ '|' :: s) : a = b ∧ r = s := by
  induction a generalizing b with
  | nil =>
    cases b with
    | nil => simpa using h
    | cons c b =>
      simp only [List.nil_append, List.cons_append, List.cons.injEq] at h
      exact absurd (by rw [← h.1]; exact List.mem_cons_self _ _) hb
  | cons c a ih =>
    cases b with
    | nil =>
      simp only [List.nil_append, List.cons_append, List.cons.injEq] at h
      exact absurd (by rw [h.1]; exact List.mem_cons_self _ _) ha
    | cons d b =>
      simp only [List.cons_append, List.cons.injEq] at h
      have := ih b (fun hm => ha (List.mem_cons_of_mem _ hm))
        (fun hm => hb (List.mem_cons_of_mem _ hm)) h.2
      exact ⟨by rw [h.1, this.1], this.2⟩

theorem stringsJoin_cons_cons_data (a b : String) (rest : List String) :
    (stringsJoin (a :: b :: rest) "|").data
      = a.data ++ '|' :: (stringsJoin (b :: rest) "|").data := by
  simp [stringsJoin, String.data_append]

theorem stringsJoin_injective (xs ys : List String) (hlen : xs.length = ys.length)
    (hx : ∀ t ∈ xs, barFree t) (hy : ∀ t ∈ ys, barFree t)
    (h : stringsJoin xs "|" = stringsJoin ys "|") : xs = ys := by
  induction xs generalizing ys with
  | nil =>
    cases ys with
    | nil => rfl
    | cons y ys => simp at hlen
  | cons a xs ih =>
    cases ys with
    | nil => simp at hlen
    | cons b ys =>
      cases xs with
      | nil =>
        cases ys with
        | nil =>
          simp only [stringsJoin] at h
          rw [h]
        | cons b2 ys => simp at hlen
      | cons a2 xs =>
        cases ys with
        | nil => simp at hlen
        | cons b2 ys =>
          have hd := congrArg String.data h
          rw [stringsJoin_cons_cons_data, stringsJoin_cons_cons_data] at hd
          have hs := chars_split_at_bar _ _ _ _ (hx a (List.mem_cons_self _ _))
            (hy b (List.mem_cons_self _ _)) hd
          have hab : a = b := String.ext hs.1
          have hrest : stringsJoin (a2 :: xs) "|" = stringsJoin (b2 :: ys) "|" :=
            String.ext hs.2
          have := ih (b2 :: ys) (by simpa using hlen)
            (fun t ht => hx t (List.mem_cons_of_mem _ ht))
            (fun t ht => hy t (List.mem_cons_of_mem _ ht)) hrest
          rw [hab, this]

theorem fieldToken_inj (x y : NodeReference String) (rx ry : List String)
    (hp : x.IsEmpty = y.IsEmpty)
    (h : (if x.IsEmpty then [] else [x.Value]) ++ rx
      = (if y.IsEmpty then [] else [y.Value]) ++ ry) :
    sameField x y ∧ rx = ry := by
  rw [← hp] at h
  cases hx : x.IsEmpty with
  | true =>
    simp only [hx, if_true, List.nil_append] at h
    exact ⟨⟨hp, fun hf => by rw [hx] at hf; cases hf⟩, h⟩
  | false =>
    simp only [hx, Bool.false_eq_true, if_false, List.cons_append, List.nil_append,
      List.cons.injEq] at h
    exact ⟨⟨hp, fun _ => h.1⟩, h.2⟩

end v3

namespace v3

open low

theorem fieldToken_length (b : Bool) (v : String) :
    (if b then ([] : List String) else [v]).length = if b then 0 else 1 := by
  cases b <;> rfl

theorem fieldToken_length_zero (b : Bool) (v : String)
    (h : (if b then ([] : List String) else [v]).length = 0) :
    (if b then ([] : List String) else [v]) = [] :=
  List.length_eq_zero.1 h

/-- The tokens are those of the present fields followed by those of the extensions, and the
number of the former is the number of fields present. -/
theorem tokens_split {F A N I : Type} (lib : Lib F A N I) (ss : SecurityScheme F A) :
    ∃ fields : List String,
      ss.tokens lib = fields ++ ss.Extensions.map (extensionToken lib.Sprint)
      ∧ fields.length =
        (if ss.Type_.IsEmpty then 0 else 1) + (if ss.Description.IsEmpty then 0 else 1)
        + (if ss.Name.IsEmpty then 0 else 1) + (if ss.In.IsEmpty then 0 else 1)
        + (if ss.Scheme.IsEmpty then 0 else 1) + (if ss.BearerFormat.IsEmpty then 0 else 1)
        + (if ss.Flows.IsEmpty then 0 else 1)
        + (if ss.OpenIdConnectUrl.IsEmpty then 0 else 1) := by
  refine ⟨(if ss.Type_.IsEmpty then [] else [ss.Type_.Value])
      ++ (if ss.Description.IsEmpty then [] else [ss.Description.Value])
      ++ (if ss.Name.IsEmpty then [] else [ss.Name.Value])
      ++ (if ss.In.IsEmpty then [] else [ss.In.Value])
      ++ (if ss.Scheme.IsEmpty then [] else [ss.Scheme.Value])
      ++ (if ss.BearerFormat.IsEmpty then [] else [ss.BearerFormat.Value])
      ++ (if ss.Flows.IsEmpty then [] else [lib.GenerateHashString ss.Flows.Value])
      ++ (if ss.OpenIdConnectUrl.IsEmpty then [] else [ss.OpenIdConnectUrl.Value]), ?_, ?_⟩
  · rw [tokens_eq]
    simp only [List.append_assoc]
  · simp only [List.length_append, fieldToken_length]

theorem count_bar_of_barFree (t : String) (h : barFree t) : t.data.count '|' = 0 :=
  List.count_eq_zero_of_not_mem h

/-- A join of tokens without `|` holds one `|` less than there are tokens. -/
theorem stringsJoin_bar_count (xs : List String) (hx : ∀ t ∈ xs, barFree t) :
    (stringsJoin xs "|").data.count '|' = xs.length - 1 := by
  induction xs with
  | nil => simp [stringsJoin]
  | cons a xs ih =>
    cases xs with
    | nil =>
      simpa [stringsJoin] using count_bar_of_barFree a (hx a (List.mem_cons_self _ _))
    | cons b rest =>
      rw [stringsJoin_cons_cons_data, List.count_append, List.count_cons_self,
        count_bar_of_barFree a (hx a (List.mem_cons_self _ _)),
        ih (fun t ht => hx t (List.mem_cons_of_mem _ ht))]
      simp

theorem extensionToken_ne_empty {A : Type} (Sprint : A → String)
    (e : KeyReference String × ValueReference A) : extensionToken Sprint e ≠ "" := by
  intro h
  have hd := congrArg String.data h
  simp [extensionToken, String.data_append] at hd

/-- With as many field tokens on either side, a list of tokens that is empty and one that
consists of a single token are not joined to the same string: the single token would be an
extension token, which is not empty. -/
theorem joined_ne_of_empty_and_single {A : Type} (Sprint : A → String)
    (fx fy : List String) (ex ey : RefMap A) (hf : fx.length = fy.length)
    (h0 : (fx ++ ex.map (extensionToken Sprint)).length = 0)
    (h1 : (fy ++ ey.map (extensionToken Sprint)).length = 1)
    (hj : stringsJoin (fx ++ ex.map (extensionToken Sprint)) "|"
      = stringsJoin (fy ++ ey.map (extensionToken Sprint)) "|") : False := by
  have hx0 : fx ++ ex.map (extensionToken Sprint) = [] := List.length_eq_zero.1 h0
  have hfx : fx.length = 0 := by
    have := h0
    rw [List.length_append] at this
    omega
  have hfy : fy = [] := List.length_eq_zero.1 (by omega)
  subst hfy
  simp only [List.nil_append] at h1 hj
  rw [hx0] at hj
  cases ey with
  | nil => simp at h1
  | cons e rest =>
    cases rest with
    | nil =>
      simp only [List.map_cons, List.map_nil, stringsJoin] at hj
      exact extensionToken_ne_empty Sprint e hj.symm
    | cons e2 rest2 => simp at h1

theorem tokens_length_of_joined {F A N I : Type} (lib : Lib F A N I)
    (x y : SecurityScheme F A) (h : SamePresence x y)
    (hx : ∀ t ∈ x.tokens lib, barFree t) (hy : ∀ t ∈ y.tokens lib, barFree t)
    (hj : x.joined lib = y.joined lib) :
    (x.tokens lib).length = (y.tokens lib).length := by
  obtain ⟨p1, p2, p3, p4, p5, p6, p7, p8⟩ := h
  obtain ⟨fx, hfx, hlx⟩ := tokens_split lib x
  obtain ⟨fy, hfy, hly⟩ := tokens_split lib y
  have hf : fx.length = fy.length := by
    rw [hlx, hly, p1, p2, p3, p4, p5, p6, p7, p8]
  have hc : (x.tokens lib).length - 1 = (y.tokens lib).length - 1 := by
    rw [← stringsJoin_bar_count _ hx, ← stringsJoin_bar_count _ hy]
    simp only [SecurityScheme.joined] at hj
    rw [hj]
  simp only [SecurityScheme.joined] at hj
  rw [hfx, hfy] at hj hc ⊢
  by_contra hne
  have hcases :
      ((fx ++ x.Extensions.map (extensionToken lib.Sprint)).length = 0
        ∧ (fy ++ y.Extensions.map (extensionToken lib.Sprint)).length = 1)
      ∨ ((fy ++ y.Extensions.map (extensionToken lib.Sprint)).length = 0
        ∧ (fx ++ x.Extensions.map (extensionToken lib.Sprint)).length = 1) := by
    omega
  rcases hcases with ⟨h0, h1⟩ | ⟨h0, h1⟩
  · exact joined_ne_of_empty_and_single lib.Sprint fx fy _ _ hf h0 h1 hj
  · exact joined_ne_of_empty_and_single lib.Sprint fy fx _ _ hf.symm h0 h1 hj.symm

/-- C5, as the code has it.  First part: two security schemes that agree on the presence and
value of each of the eight significant fields and on their extension entries, visited in the
same order, give `Hash` the same string to digest, hence the same digest, whatever their source
positions.  Second part, what holds of the converse: when the two schemes have the same
significant fields present and no token contains the delimiter `|`, equal digested strings
force equal values in every present field, equal hash strings of the flows, and equal extension
tokens.  (Without these conditions the converse fails: the string does not record which fields
are present, and a value may contain the delimiter.) -/
theorem Hash_agrees_on_same_content {F A N I : Type} (lib : Lib F A N I)
    (x y : SecurityScheme F A) :
    (SameContent x y →
      x.joined lib = y.joined lib
      ∧ ∀ Sum256 : String → Digest, x.Hash lib Sum256 = y.Hash lib Sum256)
    ∧ (SamePresence x y → (∀ t ∈ x.tokens lib, barFree t) → (∀ t ∈ y.tokens lib, barFree t) →
      x.joined lib = y.joined lib →
        sameField x.Type_ y.Type_ ∧ sameField x.Description y.Description
        ∧ sameField x.Name y.Name ∧ sameField x.In y.In ∧ sameField x.Scheme y.Scheme
        ∧ sameField x.BearerFormat y.BearerFormat
        ∧ (x.Flows.IsEmpty = false →
            lib.GenerateHashString x.Flows.Value = lib.GenerateHashString y.Flows.Value)
        ∧ sameField x.OpenIdConnectUrl y.OpenIdConnectUrl
        ∧ x.Extensions.map (extensionToken lib.Sprint)
            = y.Extensions.map (extensionToken lib.Sprint)) := by
  constructor
  · intro h
    have ht := tokens_eq_of_sameContent lib x y h
    have hj : x.joined lib = y.joined lib := by
      simp only [SecurityScheme.joined, ht]
    exact ⟨hj, fun Sum256 => by simp only [SecurityScheme.Hash, hj]⟩
  · intro hp hx hy hj
    have hlen := tokens_length_of_joined lib x y hp hx hy hj
    have ht : x.tokens lib = y.tokens lib :=
      stringsJoin_injective _ _ hlen hx hy hj
    obtain ⟨p1, p2, p3, p4, p5, p6, p7, p8⟩ := hp
    rw [tokens_eq, tokens_eq] at ht
    obtain ⟨f1, ht⟩ := fieldToken_inj _ _ _ _ p1 ht
    obtain ⟨f2, ht⟩ := fieldToken_inj _ _ _ _ p2 ht
    obtain ⟨f3, ht⟩ := fieldToken_inj _ _ _ _ p3 ht
    obtain ⟨f4, ht⟩ := fieldToken_inj _ _ _ _ p4 ht
    obtain ⟨f5, ht⟩ := fieldToken_inj _ _ _ _ p5 ht
    obtain ⟨f6, ht⟩ := fieldToken_inj _ _ _ _ p6 ht
    rw [← p7] at ht
    cases hfl : x.Flows.IsEmpty with
    | true =>
      simp only [hfl, if_true, List.nil_append] at ht
      obtain ⟨f8, ht⟩ := fieldToken_inj _ _ _ _ p8 ht
      exact ⟨f1, f2, f3, f4, f5, f6, fun hf => Bool.noConfusion hf, f8, ht⟩
    | false =>
      simp only [hfl, Bool.false_eq_true, if_false, List.cons_append, List.nil_append,
        List.cons.injEq] at ht
      obtain ⟨f8, ht2⟩ := fieldToken_inj _ _ _ _ p8 ht.2
      exact ⟨f1, f2, f3, f4, f5, f6, fun _ => ht.1, f8, ht2⟩

theorem sameContent_moved : SameContent apiKeyHeader apiKeyHeaderMoved := by
  refine ⟨⟨rfl, fun _ => rfl⟩, ⟨rfl, fun _ => rfl⟩, ⟨rfl, fun _ => rfl⟩, ⟨rfl, fun _ => rfl⟩,
    ⟨rfl, fun _ => rfl⟩, ⟨rfl, fun _ => rfl⟩, ⟨rfl, fun _ => rfl⟩, ⟨rfl, fun _ => rfl⟩, rfl⟩

theorem barFree_tokens_header : ∀ t ∈ apiKeyHeader.tokens specLib, barFree t := by
  have h : apiKeyHeader.tokens specLib = ["apiKey", "X-API-KEY", "header"] := by decide
  rw [h]
  intro t ht
  simp only [List.mem_cons, List.mem_singleton, List.not_mem_nil, or_false] at ht
  rcases ht with rfl | rfl | rfl <;> (unfold barFree; decide)

theorem barFree_tokens_query : ∀ t ∈ apiKeyQuery.tokens specLib, barFree t := by
  have h : apiKeyQuery.tokens specLib = ["apiKey", "X-API-KEY", "query"] := by decide
  rw [h]
  intro t ht
  simp only [List.mem_cons, List.mem_singleton, List.not_mem_nil, or_false] at ht
  rcases ht with rfl | rfl | rfl <;> (unfold barFree; decide)

/-- C5 (as the code has it) at concrete inputs: the scheme `apiKey` in `header` read from two
places of a document digests to the same string; and that scheme and the one with `in: query`,
which have the same fields present, do not digest to the same string. -/
theorem Hash_agrees_on_same_content_witness :
    apiKeyHeader.Type_.Line ≠ apiKeyHeaderMoved.Type_.Line
    ∧ apiKeyHeader.joined specLib = apiKeyHeaderMoved.joined specLib
    ∧ apiKeyHeader.joined specLib ≠ apiKeyQuery.joined specLib := by
  refine ⟨by decide,
    ((Hash_agrees_on_same_content specLib apiKeyHeader apiKeyHeaderMoved).1
      sameContent_moved).1, ?_⟩
  intro hj
  have h := (Hash_agrees_on_same_content specLib apiKeyHeader apiKeyQuery).2
    (by refine ⟨rfl, rfl, rfl, rfl, rfl, rfl, rfl, rfl⟩)
    barFree_tokens_header barFree_tokens_query hj
  have hin := h.2.2.2.1.2 (by decide)
  exact absurd hin (by decide)

/-- C5, the claim refuted.  A scheme whose only field is `type: apiKey` and a scheme whose only
field is `description: apiKey` differ in the presence of two significant fields and give `Hash`
the same string, hence the same digest under every digest function; so do a scheme with
`type: a|b` and a scheme with `type: a`, `description: b`, whose values differ. -/
theorem joined_collision_counterexample :
    (onlyType.Type_.IsEmpty = false ∧ onlyDescription.Type_.IsEmpty = true)
    ∧ onlyType.joined specLib = "apiKey"
    ∧ onlyDescription.joined specLib = "apiKey"
    ∧ (∀ Sum256 : String → Digest,
        onlyType.Hash specLib Sum256 = onlyDescription.Hash specLib Sum256)
    ∧ typeWithBar.Type_.Value ≠ typeAndDescription.Type_.Value
    ∧ typeWithBar.joined specLib = "a|b"
    ∧ typeAndDescription.joined specLib = "a|b"
    ∧ (∀ Sum256 : String → Digest,
        typeWithBar.Hash specLib Sum256 = typeAndDescription.Hash specLib Sum256) :=
  ⟨⟨by decide, by decide⟩, by decide, by decide, fun _ => rfl, by decide, by decide,
    by decide, fun _ => rfl⟩

/-- C6, the code at the failing input: a scheme with the extensions `x-a: 1` and `x-b: 2`.
When the loop over the extension map visits `x-a` first `Hash` digests `apiKey|x-a-1|x-b-2`,
when it visits `x-b` first it digests `apiKey|x-b-2|x-a-1`: the tokens are not put in key
order, the two strings differ, and so do the digests under every injective digest function. -/
theorem Hash_depends_on_extension_order :
    twoExtensionsOtherOrder.Extensions.Perm twoExtensions.Extensions
    ∧ twoExtensions.joined specLib = "apiKey|x-a-1|x-b-2"
    ∧ twoExtensionsOtherOrder.joined specLib = "apiKey|x-b-2|x-a-1"
    ∧ (∀ Sum256 : String → Digest, Function.Injective Sum256 →
        twoExtensions.Hash specLib Sum256 ≠ twoExtensionsOtherOrder.Hash specLib Sum256) := by
  refine ⟨List.reverse_perm _, by decide, by decide, ?_⟩
  intro Sum256 hinj h
  have hj : twoExtensions.joined specLib = twoExtensionsOtherOrder.joined specLib := hinj h
  exact absurd hj (by decide)

end v3

